import Mathlib

/-!
Verification of the ordered-resource reconciliation and ownership-scoped
mutation layer of the "archived" collection-management backend.

The Python source (FastAPI + SQLAlchemy) is embedded shallowly:
- the relational store is a `DB` record of row lists;
- each endpoint body becomes a pure function `DB → ... → Except HTTPError DB`
  (the session is `autocommit=False` and is closed without commit when an
  `HTTPException` escapes, so an error result carries no state: exactly the
  single-commit semantics of the source);
- timestamps are abstract `Nat` instants passed in as `now`;
- opaque identifiers are `Nat`, allocated from `DB.next_id`.
-/

/-- A FastAPI failure response: `HTTPException(status_code, detail)`;
pydantic request-validation failures surface as status 422. -/
structure HTTPError where
  status_code : Nat
  detail : String
deriving DecidableEq

/-- Result of one request: either a committed state/value or an HTTP failure. -/
abbrev Api (α : Type) := Except HTTPError α

/-- Results are comparable, so concrete runs can be checked by `decide`. -/
instance {ε α : Type} [DecidableEq ε] [DecidableEq α] :
    DecidableEq (Except ε α) := fun a b =>
  match a, b with
  | .ok x, .ok y =>
    match decEq x y with
    | .isTrue h => .isTrue (h ▸ rfl)
    | .isFalse h => .isFalse (fun hc => h (by cases hc; rfl))
  | .error x, .error y =>
    match decEq x y with
    | .isTrue h => .isTrue (h ▸ rfl)
    | .isFalse h => .isFalse (fun hc => h (by cases hc; rfl))
  | .ok _, .error _ => .isFalse (fun hc => Except.noConfusion hc)
  | .error _, .ok _ => .isFalse (fun hc => Except.noConfusion hc)

/-- Row of the `users` table (models.py `User`). -/
structure UserRow where
  id : Nat
  username : String
  email : String
  hashed_password : String
  created_date : Nat
  updated_date : Nat
deriving DecidableEq

/-- Row of the `collections` table (models.py `Collection`). -/
structure CollectionRow where
  id : Nat
  name : String
  description : Option String
  owner_id : Nat
  collection_order : Nat
  created_date : Nat
  updated_date : Nat
deriving DecidableEq

/-- Row of the `items` table (models.py `Item`). -/
structure ItemRow where
  id : Nat
  name : String
  description : Option String
  collection_id : Nat
  item_order : Nat
  created_date : Nat
  updated_date : Nat
deriving DecidableEq

/-- Row of the `item_images` table (models.py `ItemImage`). -/
structure ItemImageRow where
  id : Nat
  image_url : String
  item_id : Nat
  image_order : Nat
  created_date : Nat
  updated_date : Nat
deriving DecidableEq

/-- Row of the `tags` table (models.py `Tag`). -/
structure TagRow where
  id : Nat
  name : String
deriving DecidableEq

/-- Row of the `collection_shares` table (models.py `CollectionShare`). -/
structure CollectionShareRow where
  id : Nat
  collection_id : Nat
  token : String
  is_enabled : Bool
  created_date : Nat
  updated_date : Nat
deriving DecidableEq

/-- The relational store.  `item_tags` is the many-to-many junction table
(`(item_id, tag_id)` pairs); `next_id` is the id allocator standing for the
auto-increment primary keys. -/
structure DB where
  users : List UserRow
  collections : List CollectionRow
  items : List ItemRow
  item_images : List ItemImageRow
  tags : List TagRow
  item_tags : List (Nat × Nat)
  collection_shares : List CollectionShareRow
  next_id : Nat
deriving DecidableEq

/-- Python `x or y` for `x` an optional integer: both `None` and `0` are
falsy, so `(max_order or 0)` collapses to `Option.getD` at default `0`. -/
def pyOr (m : Option Nat) (d : Nat) : Nat :=
  match m with
  | none => d
  | some v => if v == 0 then d else v

/-- SQL `MAX` over a column: `None` on an empty set, else the maximum. -/
def sqlMax : List Nat → Option Nat
  | [] => none
  | x :: xs =>
    match sqlMax xs with
    | none => some x
    | some m => some (Nat.max x m)

/-- Python `set(a) == set(b)` on integer lists. -/
def natSetEq (a b : List Nat) : Bool :=
  a.all (fun x => b.contains x) && b.all (fun x => a.contains x)

/-- Python `enumerate`, with explicit start index for the induction. -/
def enumFromN (k : Nat) : List α → List (Nat × α)
  | [] => []
  | x :: xs => (k, x) :: enumFromN (k + 1) xs

/- ### Ownership resolvers (routers/utils.py) -/

/-- utils.py `verify_collection`: one query filtering on id and owner;
a collection that is absent and one owned by someone else produce the same
404 response. -/
def verify_collection (db : DB) (uid cid : Nat) : Api CollectionRow :=
  match db.collections.find? (fun c => c.id == cid && c.owner_id == uid) with
  | some c => .ok c
  | none => .error ⟨404, "Collection not found or you don't have access to it"⟩

/-- SQL join `Item ⋈ Collection` restricted to the requesting owner. -/
def itemOwned (db : DB) (uid : Nat) (it : ItemRow) : Bool :=
  db.collections.any (fun c => c.id == it.collection_id && c.owner_id == uid)

/-- utils.py `verify_item`: a single joined query, so absence and foreign
ownership are indistinguishable. -/
def verify_item (db : DB) (uid iid : Nat) : Api ItemRow :=
  match db.items.find? (fun it => it.id == iid && itemOwned db uid it) with
  | some it => .ok it
  | none => .error ⟨404, "Item not found or you don't have access to it"⟩

/-- utils.py `verify_item_image`: two queries — first the bare image lookup
(404 "Image not found"), then the owner-joined item lookup (404 "Item not
found or you don't have access to it"). -/
def verify_item_image (db : DB) (uid imgid : Nat) : Api ItemImageRow :=
  match db.item_images.find? (fun im => im.id == imgid) with
  | none => .error ⟨404, "Image not found"⟩
  | some im =>
    if db.items.any (fun it => it.id == im.item_id && itemOwned db uid it) then
      .ok im
    else
      .error ⟨404, "Item not found or you don't have access to it"⟩

/- ### Creation (routers/users.py `create_collection`, routers/collections.py `create_item`) -/

/-- The live members of a user's collection scope. -/
def scopeCollections (db : DB) (uid : Nat) : List CollectionRow :=
  db.collections.filter (fun c => c.owner_id == uid)

/-- The live members of a collection's item scope. -/
def scopeItems (db : DB) (cid : Nat) : List ItemRow :=
  db.items.filter (fun it => it.collection_id == cid)

/-- The live members of an item's image scope. -/
def scopeImages (db : DB) (iid : Nat) : List ItemImageRow :=
  db.item_images.filter (fun im => im.item_id == iid)

/-- users.py `create_collection`: `next_order = (max_order or 0) + 1` where
`max_order` is the SQL MAX over the owner's collections. -/
def create_collection (db : DB) (uid : Nat) (name : String)
    (description : Option String) (now : Nat) : DB × CollectionRow :=
  let max_order := sqlMax ((scopeCollections db uid).map (fun c => c.collection_order))
  let next_order := pyOr max_order 0 + 1
  let c : CollectionRow :=
    ⟨db.next_id, name, description, uid, next_order, now, now⟩
  ({ db with collections := db.collections ++ [c], next_id := db.next_id + 1 }, c)

/-- Set `updated_date := now` on the collection with the given id. -/
def touchCollection (cs : List CollectionRow) (cid now : Nat) : List CollectionRow :=
  cs.map (fun c => if c.id == cid then { c with updated_date := now } else c)

/-- collections.py `create_item`: owner check, then
`next_order = (max_order or 0) + 1` over the collection's items, then the
collection's `updated_date` is touched. -/
def create_item (db : DB) (uid cid : Nat) (name : String)
    (description : Option String) (now : Nat) : Api (DB × ItemRow) :=
  match verify_collection db uid cid with
  | .error e => .error e
  | .ok _ =>
    let max_order := sqlMax ((scopeItems db cid).map (fun it => it.item_order))
    let next_order := pyOr max_order 0 + 1
    let it : ItemRow := ⟨db.next_id, name, description, cid, next_order, now, now⟩
    .ok ({ db with
            items := db.items ++ [it],
            collections := touchCollection db.collections cid now,
            next_id := db.next_id + 1 }, it)

/- ### Full-sequence reorder (routers/collections.py `update_item_order`,
routers/users.py `update_collection_order`) -/

/-- schemas.py `ItemOrderUpdate.validate_item_ids` together with
`Field(min_length=1)`: the request body must be a non-empty list of unique,
strictly positive integers, checked by pydantic before the endpoint runs
(`len(v) != len(set(v))` is the duplicate check). -/
def validate_item_ids (v : List Nat) : Bool :=
  !v.isEmpty && (v.dedup.length == v.length) && v.all (fun i => decide (0 < i))

/-- One pass of the reorder loop body on a single row: the per-iteration
query `filter(Item.id == item_id, Item.collection_id == collection_id)`
followed by the order/timestamp assignment. -/
def rowApply (cid now : Nat) (pairs : List (Nat × Nat)) (it : ItemRow) : ItemRow :=
  pairs.foldl
    (fun row p =>
      if row.id == p.2 && row.collection_id == cid then
        { row with item_order := p.1, updated_date := now }
      else row)
    it

/-- The `for order, item_id in enumerate(order_update.item_ids)` loop of
`update_item_order`, acting on the whole items table. -/
def applyItemOrders (items : List ItemRow) (cid : Nat) (ids : List Nat)
    (now : Nat) : List ItemRow :=
  (enumFromN 0 ids).foldl
    (fun acc p =>
      acc.map (fun it =>
        if it.id == p.2 && it.collection_id == cid then
          { it with item_order := p.1, updated_date := now }
        else it))
    items

/-- collections.py `update_item_order` (PATCH /collections/{id}/items/order):
request validation, owner check, exact set comparison against the live item
ids, then position-indexed assignment and a touch of the collection. -/
def update_item_order (db : DB) (uid cid : Nat) (item_ids : List Nat)
    (now : Nat) : Api DB :=
  if !(validate_item_ids item_ids) then
    .error ⟨422, "Request validation failed for ItemOrderUpdate.item_ids"⟩
  else
    match verify_collection db uid cid with
    | .error e => .error e
    | .ok _ =>
      let current_item_ids := (scopeItems db cid).map (fun it => it.id)
      if !(natSetEq current_item_ids item_ids) then
        .error ⟨400, "Item IDs in order update must match exactly with current collection items"⟩
      else
        .ok { db with
              items := applyItemOrders db.items cid item_ids now,
              collections := touchCollection db.collections cid now }

/-- The `for order, collection_id in enumerate(order_update)` loop of
`update_collection_order`. -/
def applyCollectionOrders (cs : List CollectionRow) (uid : Nat)
    (ids : List Nat) (now : Nat) : List CollectionRow :=
  (enumFromN 0 ids).foldl
    (fun acc p =>
      acc.map (fun c =>
        if c.id == p.2 && c.owner_id == uid then
          { c with collection_order := p.1, updated_date := now }
        else c))
    cs

/-- users.py `update_collection_order` (PATCH /users/me/collections/order):
the body is a plain `List[int]` (no pydantic validator), an explicit
`len(order_update) == 0` rejection, then the exact set comparison and the
position-indexed assignment.  The user row's own timestamp is not touched. -/
def update_collection_order (db : DB) (uid : Nat) (order_update : List Nat)
    (now : Nat) : Api DB :=
  if order_update.length == 0 then
    .error ⟨400, "No collection orders provided"⟩
  else
    let current_collection_ids := (scopeCollections db uid).map (fun c => c.id)
    if !(natSetEq current_collection_ids order_update) then
      .error ⟨400, "Collection IDs in order update must match exactly with current collections"⟩
    else
      .ok { db with collections := applyCollectionOrders db.collections uid order_update now }

/- ### Deletion (routers/collections.py `delete_collection`,
routers/items.py `delete_item`, routers/images.py `delete_item_image`) -/

/-- collections.py `delete_collection`: owner check then `db.delete` of the
single row; children go with it (cascade), siblings are untouched. -/
def delete_collection (db : DB) (uid cid : Nat) : Api DB :=
  match verify_collection db uid cid with
  | .error e => .error e
  | .ok _ =>
    .ok { db with
          collections := db.collections.filter (fun c => !(c.id == cid)),
          items := db.items.filter (fun it => !(it.collection_id == cid)),
          item_images := db.item_images.filter
            (fun im => !(db.items.any (fun it => it.id == im.item_id && it.collection_id == cid))),
          item_tags := db.item_tags.filter
            (fun p => !(db.items.any (fun it => it.id == p.1 && it.collection_id == cid))),
          collection_shares := db.collection_shares.filter (fun s => !(s.collection_id == cid)) }

/-- items.py `delete_item`: owner check then `db.delete` of the single item
row; its images and tag associations go with it, siblings are untouched. -/
def delete_item (db : DB) (uid iid : Nat) : Api DB :=
  match verify_item db uid iid with
  | .error e => .error e
  | .ok _ =>
    .ok { db with
          items := db.items.filter (fun it => !(it.id == iid)),
          item_images := db.item_images.filter (fun im => !(im.item_id == iid)),
          item_tags := db.item_tags.filter (fun p => !(p.1 == iid)) }

/-- images.py `delete_item_image` (DELETE /images/{image_id}): bare image
lookup, owner-joined item lookup, best-effort file removal (not modelled:
its failure is swallowed), then `db.delete` of the single image row. -/
def delete_item_image (db : DB) (uid imgid : Nat) : Api DB :=
  match db.item_images.find? (fun im => im.id == imgid) with
  | none => .error ⟨404, "Image not found"⟩
  | some im =>
    if db.items.any (fun it => it.id == im.item_id && itemOwned db uid it) then
      .ok { db with item_images := db.item_images.filter (fun i => !(i.id == imgid)) }
    else
      .error ⟨404, "Item not found or you don't have access to it"⟩

/- ### Tag addition (routers/items.py `add_item_tags`) -/

/-- The body of the `for tag_name in tag_data.tags` loop: look the tag up by
exact name, create it (with a freshly flushed id) only if absent, then append
the association only if `tag not in item.tags`. -/
def addOneTag (iid : Nat) (db : DB) (name : String) : DB :=
  let found := db.tags.find? (fun t => t.name == name)
  let pair :=
    match found with
    | some t => (db, t.id)
    | none =>
      ({ db with tags := db.tags ++ [TagRow.mk db.next_id name],
                 next_id := db.next_id + 1 },
       db.next_id)
  let db2 := pair.1
  let tagId := pair.2
  if db2.item_tags.contains (iid, tagId) then db2
  else { db2 with item_tags := db2.item_tags ++ [(iid, tagId)] }

/-- items.py `add_item_tags` (POST /items/{id}/tags): owner check, touch the
item's timestamp, then get-or-create and idempotent association per name. -/
def add_item_tags (db : DB) (uid iid : Nat) (names : List String)
    (now : Nat) : Api DB :=
  match verify_item db uid iid with
  | .error e => .error e
  | .ok _ =>
    let db1 := { db with
      items := db.items.map (fun it =>
        if it.id == iid then { it with updated_date := now } else it) }
    .ok (names.foldl (addOneTag iid) db1)

/- ### Share-link state machine (routers/share.py) -/

/-- share.py `get_shared_collection` (GET /share/{token}): the share is
looked up by token with `is_enabled == True` in the same filter, so a
disabled token and an unknown token yield the same 404. -/
def get_shared_collection (db : DB) (token : String) : Api CollectionRow :=
  match db.collection_shares.find? (fun s => s.token == token && s.is_enabled) with
  | none => .error ⟨404, "Invalid or disabled share link"⟩
  | some s =>
    match db.collections.find? (fun c => c.id == s.collection_id) with
    | none => .error ⟨404, "Collection not found"⟩
    | some c => .ok c

/-- share.py `create_or_enable_share` (POST /share/collections/{id}).
`freshToken` stands for the `uuid4().hex` mint of this request; its
unguessability is the freshness hypotheses of the theorems.  Returns the
`token`/`is_enabled` fields of the response dict. -/
def create_or_enable_share (db : DB) (uid cid : Nat) (rotate : Bool)
    (freshToken : String) (now : Nat) : Api (DB × String × Bool) :=
  if !(db.collections.any (fun c => c.id == cid && c.owner_id == uid)) then
    .error ⟨404, "Collection not found or you don't have access to it"⟩
  else
    match db.collection_shares.find? (fun s => s.collection_id == cid) with
    | some s =>
      if rotate then
        let shares2 := db.collection_shares.map
          (fun x => if x.id == s.id then { x with token := freshToken, is_enabled := true } else x)
        .ok ({ db with collection_shares := shares2 }, freshToken, true)
      else
        let shares2 := db.collection_shares.map
          (fun x => if x.id == s.id then { x with is_enabled := true } else x)
        .ok ({ db with collection_shares := shares2 }, s.token, true)
    | none =>
      .ok ({ db with
             collection_shares := db.collection_shares ++ [⟨db.next_id, cid, freshToken, true, now, now⟩],
             next_id := db.next_id + 1 },
           freshToken, true)

/-- share.py `disable_share` (DELETE /share/collections/{id}): owner-joined
share lookup, then `is_enabled = False` on that row (token kept). -/
def disable_share (db : DB) (uid cid : Nat) : Api DB :=
  match db.collection_shares.find?
      (fun s => s.collection_id == cid &&
        db.collections.any (fun c => c.id == s.collection_id && c.owner_id == uid)) with
  | none => .error ⟨404, "Share link not found"⟩
  | some s =>
    let shares2 := db.collection_shares.map
      (fun x => if x.id == s.id then { x with is_enabled := false } else x)
    .ok { db with collection_shares := shares2 }

/- ### Token refresh (routers/auth.py `refresh_access_token`,
auth/auth_handler.py `create_access_token`) -/

/-- An encoded JWT as the external codec presents it: decoding succeeds only
on a well-signed token, yielding its claims. -/
inductive Jwt
  | signed (sub : Option String) (exp : Nat)
  | malformed
deriving DecidableEq

/-- `jwt.decode(..., SECRET_KEY, [ALGORITHM])`: fails closed on anything
malformed or expired. -/
def jwt_decode (t : Jwt) (now : Nat) : Except String (Option String) :=
  match t with
  | .signed sub exp => if exp ≤ now then .error "expired signature" else .ok sub
  | .malformed => .error "invalid token"

/-- The parameter list of auth_handler.py `create_access_token(data,
expires_delta=None)` — there is no `include_random` parameter. -/
def create_access_token_params : List String := ["data", "expires_delta"]

/-- Python call semantics: a keyword argument that is not in the callee's
parameter list raises `TypeError` before the body runs. -/
def pythonKwargsAccepted (callee_params passed_keywords : List String) : Bool :=
  passed_keywords.all (fun k => callee_params.contains k)

/-- auth_handler.py `create_access_token` body: encode `sub` and an expiry
`now + expires_delta` (default 15). -/
def create_access_token (sub : String) (now : Nat) (expires_delta : Option Nat) : Jwt :=
  .signed (some sub) (now + expires_delta.getD 15)

/-- The response body of the token endpoints. -/
structure TokenPair where
  access_token : Jwt
  refresh_token : Jwt
  token_type : String
deriving DecidableEq

/-- A Python-level outcome: a normal HTTP failure, or an uncaught
`TypeError` (which FastAPI surfaces as a 500). -/
inductive PyFailure
  | http (e : HTTPError)
  | typeErr (msg : String)
deriving DecidableEq

/-- auth.py `refresh_access_token` (POST /auth/refresh): decode the refresh
token, check the subject names an existing user, then call
`create_access_token` twice — the second call passes the keyword
`include_random=True`, which `create_access_token` does not accept. -/
def refresh_access_token (db : DB) (request_refresh_token : Jwt) (now : Nat)
    (access_minutes refresh_minutes : Nat) : Except PyFailure TokenPair :=
  let credentials_exception : HTTPError := ⟨401, "Could not validate refresh token"⟩
  match jwt_decode request_refresh_token now with
  | .error _ => .error (.http credentials_exception)
  | .ok none => .error (.http credentials_exception)
  | .ok (some username) =>
    if db.users.any (fun u => u.username == username) then
      if pythonKwargsAccepted create_access_token_params ["data", "expires_delta"] then
        if pythonKwargsAccepted create_access_token_params
            ["data", "expires_delta", "include_random"] then
          .ok ⟨create_access_token username now (some access_minutes),
               create_access_token username now (some refresh_minutes), "bearer"⟩
        else
          .error (.typeErr "create_access_token() got an unexpected keyword argument include_random")
      else
        .error (.typeErr "create_access_token() got an unexpected keyword argument")
    else
      .error (.http credentials_exception)

/- ### Composite image update (routers/items.py `update_item_images`) -/

/-- An entry of the `new_images_order` form field, which is
`List[Union[int, str]]` in the source: a persistent integer id or a raw
string (the temporary `new-N` correlation ids, or any other string). -/
inductive ImgRef
  | intId (n : Nat)
  | strId (s : String)
deriving DecidableEq

/-- SQL join `ItemImage ⋈ Item ⋈ Collection` restricted to the requesting
owner (the delete-phase ownership filter: any item of the caller, not just
the addressed one). -/
def imageOwned (db : DB) (uid : Nat) (im : ItemImageRow) : Bool :=
  db.items.any (fun it => it.id == im.item_id && itemOwned db uid it)

/-- `current_image_ids`: ids of the addressed item's images. -/
def currentImageIds (db : DB) (iid : Nat) : List Nat :=
  (scopeImages db iid).map (fun im => im.id)

/-- The temporary correlation key of the i-th uploaded file, Python
`f'new-{i}'`. -/
def tempName (i : Nat) : String := "new-" ++ toString i

/-- The request-scoped `temp_id_map`, built while flushing the new rows:
`temp_id_map[f'new-{i}'] = image.id` where the flushed ids continue the
allocator. -/
def tempIdMap (count next : Nat) : List (String × Nat) :=
  (List.range count).map (fun i => (tempName i, next + i))

/-- Python `str.startswith(prefix)`, computed on the character list (the
library `String.startsWith` does not evaluate inside the kernel). -/
def pyStartsWith (s pre : String) : Bool :=
  pre.data.isPrefixOf s.data

/-- Python `int(id) if id.isdigit() else` failure: `some n` exactly on
non-empty all-digit strings. -/
def pyToNat? (s : String) : Option Nat :=
  if !s.data.isEmpty && s.data.all Char.isDigit then
    some (s.data.foldl (fun n c => n * 10 + (c.toNat - 48)) 0)
  else none

/-- `db.query(ItemImageModel).filter_by(id=id).update({'image_order': order})`:
update by bare id, touching only `image_order`. -/
def setImageOrder (imgs : List ItemImageRow) (target order : Nat) :
    List ItemImageRow :=
  imgs.map (fun im => if im.id == target then { im with image_order := order } else im)

/-- The `for order, id in enumerate(new_images_order)` loop (phase 3).
A `new…` string resolves through `temp_id_map` (unknown key: 400); any other
string is converted with `int` when it is all digits and otherwise can never
match an integer id (400); an integer id must be a current image id and must
not have just been deleted. -/
def applyImageOrders (imgs : List ItemImageRow)
    (current_image_ids found_image_ids : List Nat)
    (temp_id_map : List (String × Nat)) :
    List (Nat × ImgRef) → Api (List ItemImageRow)
  | [] => .ok imgs
  | (order, ref) :: rest =>
    match ref with
    | .strId s =>
      if pyStartsWith s "new" then
        match temp_id_map.lookup s with
        | none => .error ⟨400, "Unknown temp ID"⟩
        | some new_id =>
          applyImageOrders (setImageOrder imgs new_id order)
            current_image_ids found_image_ids temp_id_map rest
      else
        match pyToNat? s with
        | none => .error ⟨400, "Invalid image ID in order"⟩
        | some n =>
          if !(current_image_ids.contains n) || found_image_ids.contains n then
            .error ⟨400, "Invalid image ID in order"⟩
          else
            applyImageOrders (setImageOrder imgs n order)
              current_image_ids found_image_ids temp_id_map rest
    | .intId n =>
      if !(current_image_ids.contains n) || found_image_ids.contains n then
        .error ⟨400, "Invalid image ID in order"⟩
      else
        applyImageOrders (setImageOrder imgs n order)
          current_image_ids found_image_ids temp_id_map rest

/-- `integer_ids_in_order`: the `isinstance(id, int)` entries of the order
list. -/
def integerIdsInOrder (ord : List ImgRef) : List Nat :=
  ord.filterMap (fun r => match r with | .intId n => some n | .strId _ => none)

/-- `images_to_delete`: rows matching the delete-list and the caller's
transitive ownership (any of the caller's items, not only the addressed
one). -/
def imagesToDelete (db : DB) (uid : Nat) (dels : List Nat) : List ItemImageRow :=
  db.item_images.filter (fun im => dels.contains im.id && imageOwned db uid im)

/-- `found_image_ids`: the delete-list entries actually resolved. -/
def foundImageIds (db : DB) (uid : Nat) (dels : List Nat) : List Nat :=
  (imagesToDelete db uid dels).map (fun im => im.id)

/-- The rows left after the delete phase removes `images_to_delete`. -/
def survivingImages (db : DB) (uid : Nat) (dels : List Nat) : List ItemImageRow :=
  db.item_images.filter (fun im => !(dels.contains im.id && imageOwned db uid im))

/-- The rows flushed for the uploaded files: allocator-continuing ids, a
generated locator, and the model default `image_order = 0`. -/
def mintedImages (db : DB) (iid cnt now : Nat) : List ItemImageRow :=
  (List.range cnt).map (fun i =>
    ItemImageRow.mk (db.next_id + i) ("upload-" ++ toString (db.next_id + i))
      iid 0 now now)

/-- items.py `update_item_images` (PATCH /items/{id}/images).  File payloads
are abstracted to their count (`validate_and_compress_files` failures are a
separate concern).  A single commit ends the request: every error path above
it leaves the store untouched. -/
def update_item_images (db : DB) (uid iid : Nat)
    (deleted_item_images : List Nat) (new_files_count : Nat)
    (new_images_order : List ImgRef) (now : Nat) : Api DB :=
  match verify_item db uid iid with
  | .error e => .error e
  | .ok _ =>
    if (integerIdsInOrder new_images_order).any
        (fun n => !((currentImageIds db iid).contains n)) then
      .error ⟨400, "Invalid image IDs in order"⟩
    else if deleted_item_images.any
        (fun d => !((foundImageIds db uid deleted_item_images).contains d)) then
      .error ⟨404, "Images not found or you don't have access to them"⟩
    else
      match applyImageOrders
          (survivingImages db uid deleted_item_images ++
            mintedImages db iid new_files_count now)
          (currentImageIds db iid)
          (foundImageIds db uid deleted_item_images)
          (tempIdMap new_files_count db.next_id)
          (enumFromN 0 new_images_order) with
      | .error e => .error e
      | .ok imgs2 =>
        .ok { db with
              item_images := imgs2,
              items := db.items.map (fun it =>
                if it.id == iid then { it with updated_date := now } else it),
              next_id := db.next_id + new_files_count }

/- ### Concrete states used by the closed theorems -/

/-- Two users; user 1 owns the single (empty) collection 5; user 2 owns
nothing. -/
def emptyScopeDb : DB :=
  { users := [⟨1, "alice", "alice@x.com", "h1", 0, 0⟩,
              ⟨2, "bob", "bob@x.com", "h2", 0, 0⟩],
    collections := [⟨5, "c5", none, 1, 0, 0, 0⟩],
    items := [], item_images := [], tags := [], item_tags := [],
    collection_shares := [], next_id := 6 }

/-- Users 1 and 2; user 2 owns collection 10, which holds item 20 with the
single image 30.  No row has id 99. -/
def foreignOwnerDb : DB :=
  { users := [⟨1, "alice", "alice@x.com", "h1", 0, 0⟩,
              ⟨2, "bob", "bob@x.com", "h2", 0, 0⟩],
    collections := [⟨10, "c10", none, 2, 0, 0, 0⟩],
    items := [⟨20, "i20", none, 10, 0, 0, 0⟩],
    item_images := [⟨30, "u30", 20, 0, 0, 0⟩],
    tags := [], item_tags := [], collection_shares := [], next_id := 31 }

/- ### C1: dense-order invariant at creation time -/

/-- **C1** (code_bug evidence).  The claim says the first entity created in
an empty scope receives order 0, so that the scope's live orders are exactly
`{0, …, n-1}`.  The code computes `next_order = (max_order or 0) + 1`, and
SQL `MAX` over an empty scope is `None`, so the first item of empty
collection 5 and the first collection of user 2 both receive order **1**:
after the create the scope's order multiset is `[1]`, not `[0]`. -/
theorem first_entity_in_empty_scope_gets_order_one :
    (create_item emptyScopeDb 1 5 "first" none 7).map (fun r => r.2.item_order)
      = .ok 1 ∧
    (create_item emptyScopeDb 1 5 "first" none 7).map
        (fun r => (scopeItems r.1 5).map (fun it => it.item_order)) = .ok [1] ∧
    (create_collection emptyScopeDb 2 "first" none 7).2.collection_order = 1 ∧
    ((scopeCollections (create_collection emptyScopeDb 2 "first" none 7).1 2).map
        (fun c => c.collection_order)) = [1] := by
  refine ⟨rfl, rfl, rfl, rfl⟩

/- ### C6: uniformity of ownership-resolution failures -/

/-- **C6** (counterexample).  The claim says that for image resolution the
failure on an image owned by a different user is identical to the failure on
a nonexistent image id.  In `foreignOwnerDb`, user 1 resolving image 30
(owned by user 2) gets detail "Item not found or you don't have access to
it", while resolving the absent id 99 gets detail "Image not found": the two
404 responses are distinguishable, leaking existence. -/
theorem image_resolver_distinguishes_missing_from_foreign :
    verify_item_image foreignOwnerDb 1 30 =
      .error ⟨404, "Item not found or you don't have access to it"⟩ ∧
    verify_item_image foreignOwnerDb 1 99 = .error ⟨404, "Image not found"⟩ ∧
    (HTTPError.mk 404 "Item not found or you don't have access to it") ≠
      ⟨404, "Image not found"⟩ := by
  refine ⟨rfl, rfl, by decide⟩

/-- **C6** (amended).  Every failure of the three resolvers carries status
404.  For collections and items the whole response (status and detail) is
the same constant in both the absent and the foreign-owner case, because one
joined query decides both; for images the status is uniformly 404 but the
detail string differs between the two cases. -/
theorem resolver_failure_uniformity (db : DB) (uid rid : Nat) :
    (∀ e, verify_collection db uid rid = .error e →
      e = ⟨404, "Collection not found or you don't have access to it"⟩) ∧
    (∀ e, verify_item db uid rid = .error e →
      e = ⟨404, "Item not found or you don't have access to it"⟩) ∧
    (∀ e, verify_item_image db uid rid = .error e → e.status_code = 404) := by
  refine ⟨?_, ?_, ?_⟩ <;> intro e he
  · unfold verify_collection at he
    split at he
    · exact absurd he (by simp)
    · exact (Except.error.injEq _ _).mp he |>.symm
  · unfold verify_item at he
    split at he
    · exact absurd he (by simp)
    · exact (Except.error.injEq _ _).mp he |>.symm
  · unfold verify_item_image at he
    split at he
    · cases he; rfl
    · split at he
      · exact absurd he (by simp)
      · cases he; rfl

/-- Closed instance of `resolver_failure_uniformity`: in `foreignOwnerDb`
the image-resolver failure for the absent id 99 indeed has status 404. -/
theorem resolver_failure_uniformity_witness :
    (HTTPError.mk 404 "Image not found").status_code = 404 :=
  (resolver_failure_uniformity foreignOwnerDb 1 99).2.2 ⟨404, "Image not found"⟩ rfl

/- ### C8: refresh-token rotation -/

/-- **C8** (code_bug evidence).  The claim says POST /auth/refresh with a
valid refresh token naming an existing user succeeds with a fresh token
pair.  auth.py calls `create_access_token(..., include_random=True)`, but
auth_handler.py declares `create_access_token(data, expires_delta=None)`
with no such parameter, so every such call raises `TypeError` (surfaced as a
500) instead of returning the rotated pair. -/
theorem refresh_with_valid_token_raises_type_error (db : DB) (u : UserRow)
    (exp now am rm : Nat) (hu : u ∈ db.users) (hexp : now < exp) :
    refresh_access_token db (.signed (some u.username) exp) now am rm =
      .error (.typeErr
        "create_access_token() got an unexpected keyword argument include_random") := by
  unfold refresh_access_token jwt_decode
  have h1 : ¬ exp ≤ now := Nat.not_le.mpr hexp
  simp only [if_neg h1]
  have h2 : db.users.any (fun v => v.username == u.username) = true := by
    exact List.any_eq_true.mpr ⟨u, hu, by simp⟩
  simp [h2, pythonKwargsAccepted, create_access_token_params]

/-- Closed instance: refreshing with a well-signed unexpired token for the
existing user "alice" raises the `TypeError`. -/
theorem refresh_with_valid_token_raises_type_error_witness :
    refresh_access_token emptyScopeDb (.signed (some "alice") 10) 5 30 1440 =
      .error (.typeErr
        "create_access_token() got an unexpected keyword argument include_random") :=
  refresh_with_valid_token_raises_type_error emptyScopeDb
    ⟨1, "alice", "alice@x.com", "h1", 0, 0⟩ 10 5 30 1440 (by decide) (by decide)

/- ### C10: single-entity deletion leaves sibling orders alone -/

/-- User 1 owns collections 5 and 6; collection 5 holds items 20 and 21;
item 20 holds images 30 and 31. -/
def richDb : DB :=
  { users := [⟨1, "alice", "alice@x.com", "h1", 0, 0⟩],
    collections := [⟨5, "c5", none, 1, 0, 0, 0⟩, ⟨6, "c6", none, 1, 1, 0, 0⟩],
    items := [⟨20, "i20", none, 5, 0, 0, 0⟩, ⟨21, "i21", none, 5, 1, 0, 0⟩],
    item_images := [⟨30, "u30", 20, 0, 0, 0⟩, ⟨31, "u31", 20, 1, 0, 0⟩],
    tags := [], item_tags := [], collection_shares := [], next_id := 32 }

/-- `richDb` after `DELETE /images/30`. -/
def richDbNoImg30 : DB :=
  { richDb with item_images := [⟨31, "u31", 20, 1, 0, 0⟩] }

/-- `richDb` after `DELETE /items/21`. -/
def richDbNoItem21 : DB :=
  { richDb with items := [⟨20, "i20", none, 5, 0, 0, 0⟩] }

/-- `richDb` after `DELETE /collections/6`. -/
def richDbNoColl6 : DB :=
  { richDb with collections := [⟨5, "c5", none, 1, 0, 0, 0⟩] }

/-- **C10**.  Each single-entity delete removes exactly the addressed row:
a row survives the delete iff it was present before and is not the deleted
one, and a surviving row is byte-for-byte the old row — in particular its
order value is untouched, so no re-compaction of the scope's order sequence
happens as part of a delete. -/
theorem delete_leaves_sibling_orders_unchanged
    (db da dbi dc : DB) (uid imgid iid cid : Nat)
    (h1 : delete_item_image db uid imgid = .ok da)
    (h2 : delete_item db uid iid = .ok dbi)
    (h3 : delete_collection db uid cid = .ok dc) :
    (∀ im, im ∈ da.item_images ↔ im ∈ db.item_images ∧ ¬ im.id = imgid) ∧
    (∀ it, it ∈ dbi.items ↔ it ∈ db.items ∧ ¬ it.id = iid) ∧
    (∀ c, c ∈ dc.collections ↔ c ∈ db.collections ∧ ¬ c.id = cid) := by
  refine ⟨?_, ?_, ?_⟩
  · unfold delete_item_image at h1
    split at h1
    · exact absurd h1 (by simp)
    · split at h1
      · cases h1
        intro im
        simp [List.mem_filter]
      · exact absurd h1 (by simp)
  · unfold delete_item at h2
    split at h2
    · exact absurd h2 (by simp)
    · cases h2
      intro it
      simp [List.mem_filter]
  · unfold delete_collection at h3
    split at h3
    · exact absurd h3 (by simp)
    · cases h3
      intro c
      simp [List.mem_filter]

/-- Closed instance on `richDb`: after deleting image 30, item 21 and
collection 6 (independently), the siblings — image 31, item 20, collection 5
— survive with their old order values. -/
theorem delete_leaves_sibling_orders_unchanged_witness :
    ((⟨31, "u31", 20, 1, 0, 0⟩ : ItemImageRow) ∈ richDbNoImg30.item_images) ∧
    ((⟨20, "i20", none, 5, 0, 0, 0⟩ : ItemRow) ∈ richDbNoItem21.items) ∧
    ((⟨5, "c5", none, 1, 0, 0, 0⟩ : CollectionRow) ∈ richDbNoColl6.collections) := by
  have h := delete_leaves_sibling_orders_unchanged richDb
    richDbNoImg30 richDbNoItem21 richDbNoColl6 1 30 21 6 rfl rfl rfl
  exact ⟨(h.1 _).mpr (by decide), (h.2.1 _).mpr (by decide), (h.2.2 _).mpr (by decide)⟩

/- ### C7: share-link state machine -/

/-- `find?` returns the designated element when it satisfies the predicate
and is the only member doing so. -/
theorem find?_eq_some_of_pred_unique {α : Type} {p : α → Bool} {l : List α}
    {a : α} (ha : a ∈ l) (hp : p a = true)
    (huniq : ∀ x ∈ l, p x = true → x = a) : l.find? p = some a := by
  induction l with
  | nil => cases ha
  | cons b t ih =>
    by_cases hb : p b = true
    · have hba : b = a := huniq b (List.mem_cons_self _ _) hb
      subst hba
      simp [List.find?_cons_of_pos _ hb]
    · rw [List.find?_cons_of_neg _ hb]
      have hat : a ∈ t := by
        rcases List.mem_cons.mp ha with h | h
        · subst h; exact absurd hp hb
        · exact h
      exact ih hat (fun x hx hpx => huniq x (List.mem_cons_of_mem _ hx) hpx)

/-- **C7**.  The share-link lifecycle, under the store's uniqueness
invariants (one share per collection, unique share ids and tokens, unique
collection ids) and an unguessable fresh token: disabling then resolving the
old token 404s, and re-enabling without rotation hands back the very token
held before disabling; rotating invalidates the old token while the newly
returned token resolves to the collection. -/
theorem share_token_lifecycle
    (db : DB) (uid cid : Nat) (s : CollectionShareRow) (c : CollectionRow)
    (freshTok anyTok : String) (now : Nat)
    (hs : s ∈ db.collection_shares)
    (hscid : s.collection_id = cid)
    (hsuniq : ∀ x ∈ db.collection_shares, x.collection_id = cid → x = s)
    (hidu : ∀ x ∈ db.collection_shares, x.id = s.id → x = s)
    (htok : ∀ x ∈ db.collection_shares, x.token = s.token → x = s)
    (hfresh : ∀ x ∈ db.collection_shares, x.token ≠ freshTok)
    (hc : c ∈ db.collections) (hcid : c.id = cid) (hco : c.owner_id = uid)
    (hcu : ∀ x ∈ db.collections, x.id = cid → x = c) :
    (∀ db1, disable_share db uid cid = .ok db1 →
      get_shared_collection db1 s.token =
        .error ⟨404, "Invalid or disabled share link"⟩ ∧
      ∃ db3, create_or_enable_share db1 uid cid false anyTok now =
        .ok (db3, s.token, true)) ∧
    (∃ db2, create_or_enable_share db uid cid true freshTok now =
        .ok (db2, freshTok, true) ∧
      get_shared_collection db2 s.token =
        .error ⟨404, "Invalid or disabled share link"⟩ ∧
      get_shared_collection db2 freshTok = .ok c) := by
  have hown : db.collections.any (fun x => x.id == cid && x.owner_id == uid) = true :=
    List.any_eq_true.mpr ⟨c, hc, by simp [hcid, hco]⟩
  have hsnotfresh : s.token ≠ freshTok := hfresh s hs
  constructor
  · -- disable, then resolve old token / re-enable without rotation
    intro db1 h1
    unfold disable_share at h1
    rw [find?_eq_some_of_pred_unique (a := s) hs
      (by simp [hscid, hown]) (fun x hx hpx => hsuniq x hx (by
        have := (Bool.and_eq_true _ _).mp hpx |>.1
        simpa using this))] at h1
    cases h1
    constructor
    · -- the disabled row no longer matches `token && is_enabled`
      unfold get_shared_collection
      rw [List.find?_eq_none.mpr ?_]
      intro x hx
      obtain ⟨y, hy, rfl⟩ := List.mem_map.mp hx
      by_cases hyid : y.id = s.id
      · simp [hyid]
      · have : (y.id == s.id) = false := by simpa using hyid
        simp only [this, Bool.false_eq_true, if_false]
        intro hpred
        have hyt : y.token = s.token := by
          have := (Bool.and_eq_true _ _).mp hpred |>.1
          simpa using this
        exact hyid (congrArg CollectionShareRow.id (htok y hy hyt))
    · -- re-enable keeps the pre-disable token
      unfold create_or_enable_share
      simp only [hown, Bool.not_true, Bool.false_eq_true, if_false]
      have hfs : (List.map (fun x =>
          if x.id == s.id then { x with is_enabled := false } else x)
          db.collection_shares).find? (fun x => x.collection_id == cid) =
          some { s with is_enabled := false } := by
        apply find?_eq_some_of_pred_unique
        · exact List.mem_map.mpr ⟨s, hs, by simp⟩
        · simpa using hscid
        · intro x hx hpx
          obtain ⟨y, hy, rfl⟩ := List.mem_map.mp hx
          by_cases hyid : y.id = s.id
          · have : y = s := hidu y hy hyid
            subst this; simp
          · have hne : (y.id == s.id) = false := by simpa using hyid
            simp only [hne, Bool.false_eq_true, if_false] at hpx ⊢
            have : y.collection_id = cid := by simpa using hpx
            exact absurd (congrArg CollectionShareRow.id (hsuniq y hy this)) hyid
      rw [hfs]
      exact ⟨_, rfl⟩
  · -- rotation
    unfold create_or_enable_share
    simp only [hown, Bool.not_true, Bool.false_eq_true, if_false]
    rw [find?_eq_some_of_pred_unique (a := s) hs (by simpa using hscid)
      (fun x hx hpx => hsuniq x hx (by simpa using hpx))]
    simp only [if_pos rfl]
    refine ⟨_, rfl, ?_, ?_⟩
    · -- old token dead after rotation
      unfold get_shared_collection
      rw [List.find?_eq_none.mpr ?_]
      intro x hx
      obtain ⟨y, hy, rfl⟩ := List.mem_map.mp hx
      by_cases hyid : y.id = s.id
      · have hb : (y.id == s.id) = true := by simpa using hyid
        simp only [hb, if_pos]
        intro hpred
        have : freshTok = s.token := by
          have := (Bool.and_eq_true _ _).mp hpred |>.1
          simpa using this
        exact hsnotfresh this.symm
      · have hne : (y.id == s.id) = false := by simpa using hyid
        simp only [hne, Bool.false_eq_true, if_false]
        intro hpred
        have hyt : y.token = s.token := by
          have := (Bool.and_eq_true _ _).mp hpred |>.1
          simpa using this
        exact hyid (congrArg CollectionShareRow.id (htok y hy hyt))
    · -- new token resolves to the collection
      unfold get_shared_collection
      have hgs : (List.map (fun x =>
          if x.id == s.id then { x with token := freshTok, is_enabled := true } else x)
          db.collection_shares).find? (fun x => x.token == freshTok && x.is_enabled) =
          some { s with token := freshTok, is_enabled := true } := by
        apply find?_eq_some_of_pred_unique
        · exact List.mem_map.mpr ⟨s, hs, by simp⟩
        · simp
        · intro x hx hpx
          obtain ⟨y, hy, rfl⟩ := List.mem_map.mp hx
          by_cases hyid : y.id = s.id
          · have : y = s := hidu y hy hyid
            subst this; simp
          · have hne : (y.id == s.id) = false := by simpa using hyid
            simp only [hne, Bool.false_eq_true, if_false] at hpx ⊢
            have : y.token = freshTok := by
              have := (Bool.and_eq_true _ _).mp hpx |>.1
              simpa using this
            exact absurd this (hfresh y hy)
      rw [hgs]
      dsimp only
      rw [hscid]
      rw [show List.find? (fun x => x.id == cid) db.collections = some c from
        find?_eq_some_of_pred_unique hc (by simpa using hcid)
          (fun x hx hpx => hcu x hx (by simpa using hpx))]

/-- User 1 owns collection 5, which carries the enabled share 40 with token
"tok". -/
def shareDb : DB :=
  { users := [⟨1, "alice", "alice@x.com", "h1", 0, 0⟩],
    collections := [⟨5, "c5", none, 1, 0, 0, 0⟩],
    items := [], item_images := [], tags := [], item_tags := [],
    collection_shares := [⟨40, 5, "tok", true, 0, 0⟩], next_id := 41 }

/-- `shareDb` after `DELETE /share/collections/5`. -/
def shareDbDisabled : DB :=
  { shareDb with collection_shares := [⟨40, 5, "tok", false, 0, 0⟩] }

/-- Closed instance of `share_token_lifecycle` on `shareDb`: the disabled
token 404s, re-enabling returns "tok" again, and rotation to "fresh" kills
"tok" while "fresh" resolves to collection 5. -/
theorem share_token_lifecycle_witness :
    get_shared_collection shareDbDisabled "tok" =
      .error ⟨404, "Invalid or disabled share link"⟩ ∧
    (create_or_enable_share shareDbDisabled 1 5 false "any" 9).map
      (fun r => r.2.1) = .ok "tok" ∧
    (create_or_enable_share shareDb 1 5 true "fresh" 9).map
      (fun r => get_shared_collection r.1 "tok") =
      .ok (.error ⟨404, "Invalid or disabled share link"⟩) ∧
    (create_or_enable_share shareDb 1 5 true "fresh" 9).map
      (fun r => get_shared_collection r.1 "fresh") =
      .ok (.ok ⟨5, "c5", none, 1, 0, 0, 0⟩) := by
  have h := share_token_lifecycle shareDb 1 5 ⟨40, 5, "tok", true, 0, 0⟩
    ⟨5, "c5", none, 1, 0, 0, 0⟩ "fresh" "any" 9
    (by decide) rfl (by decide) (by decide) (by decide) (by decide)
    (by decide) rfl rfl (by decide)
  obtain ⟨h1, h2⟩ := h
  obtain ⟨hdead, db3, h3⟩ := h1 shareDbDisabled rfl
  obtain ⟨db2, heq, hdead2, hok2⟩ := h2
  refine ⟨hdead, ?_, ?_, ?_⟩
  · rw [h3]; rfl
  · rw [heq]; exact congrArg Except.ok hdead2
  · rw [heq]; exact congrArg Except.ok hok2

/- ### C9: tag addition is deduplicating and idempotent -/

/-- **C9**.  Adding one tag name that already exists globally (`t` is the
tag `find?`-ed by exact name): the global tag table is unchanged; if the
tag is already associated with the item the association table is unchanged;
otherwise exactly the one pair `(item, tag)` is appended. -/
theorem add_existing_tag_name_is_idempotent
    (db db' : DB) (uid iid now : Nat) (n : String) (t : TagRow)
    (hfind : db.tags.find? (fun x => x.name == n) = some t)
    (hok : add_item_tags db uid iid [n] now = .ok db') :
    db'.tags = db.tags ∧
    ((iid, t.id) ∈ db.item_tags → db'.item_tags = db.item_tags) ∧
    ((iid, t.id) ∉ db.item_tags → db'.item_tags = db.item_tags ++ [(iid, t.id)]) := by
  unfold add_item_tags at hok
  split at hok
  · exact absurd hok (by simp)
  · cases hok
    unfold addOneTag
    simp only [List.foldl_cons, List.foldl_nil]
    rw [show ({ db with items := db.items.map (fun it =>
        if it.id == iid then { it with updated_date := now } else it) } : DB).tags
        = db.tags from rfl] at *
    rw [hfind]
    by_cases hmem : (iid, t.id) ∈ db.item_tags
    · have hcont : db.item_tags.contains (iid, t.id) = true := by
        simpa using hmem
      simp [hcont, hmem]
    · have hcont : db.item_tags.contains (iid, t.id) = false := by
        simpa using hmem
      simp [hcont, hmem]

/-- User 1 owns collection 5 with items 20 and 21; the global tag "red"
(id 50) is associated with item 21 only. -/
def tagDb : DB :=
  { users := [⟨1, "alice", "alice@x.com", "h1", 0, 0⟩],
    collections := [⟨5, "c5", none, 1, 0, 0, 0⟩],
    items := [⟨20, "i20", none, 5, 0, 0, 0⟩, ⟨21, "i21", none, 5, 1, 0, 0⟩],
    item_images := [], tags := [⟨50, "red"⟩], item_tags := [(21, 50)],
    collection_shares := [], next_id := 51 }

/-- `tagDb` after POST /items/20/tags with ["red"] (association added). -/
def tagDbAfterNew : DB :=
  { tagDb with
    items := [⟨20, "i20", none, 5, 0, 0, 9⟩, ⟨21, "i21", none, 5, 1, 0, 0⟩],
    item_tags := [(21, 50), (20, 50)] }

/-- `tagDb` after POST /items/21/tags with ["red"] (no-op association). -/
def tagDbAfterDup : DB :=
  { tagDb with
    items := [⟨20, "i20", none, 5, 0, 0, 0⟩, ⟨21, "i21", none, 5, 1, 0, 9⟩] }

/-- Closed instance of `add_existing_tag_name_is_idempotent` on `tagDb`:
adding "red" to item 20 keeps the tag table and appends one association;
adding "red" to item 21 (already tagged) changes neither table. -/
theorem add_existing_tag_name_is_idempotent_witness :
    tagDbAfterNew.tags = tagDb.tags ∧
    tagDbAfterNew.item_tags = tagDb.item_tags ++ [(20, 50)] ∧
    tagDbAfterDup.tags = tagDb.tags ∧
    tagDbAfterDup.item_tags = tagDb.item_tags := by
  have ha := add_existing_tag_name_is_idempotent tagDb tagDbAfterNew 1 20 9 "red"
    ⟨50, "red"⟩ rfl rfl
  have hb := add_existing_tag_name_is_idempotent tagDb tagDbAfterDup 1 21 9 "red"
    ⟨50, "red"⟩ rfl rfl
  exact ⟨ha.1, ha.2.2 (by decide), hb.1, hb.2.1 (by decide)⟩

/- ### C2/C3: reorder acceptance and application lemmas -/

/-- A left fold of whole-list maps is the map of the per-element fold. -/
theorem foldl_map_comm {α β : Type} (g : β → α → α) (l : List β) (xs : List α) :
    l.foldl (fun acc p => acc.map (g p)) xs =
      xs.map (fun x => l.foldl (fun r p => g p r) x) := by
  induction l generalizing xs with
  | nil => simp
  | cons p t ih =>
    simp only [List.foldl_cons]
    rw [ih, List.map_map]
    rfl

/-- The second components of `enumFromN` are the original list. -/
theorem enumFromN_map_snd (k : Nat) (l : List α) :
    (enumFromN k l).map Prod.snd = l := by
  induction l generalizing k with
  | nil => rfl
  | cons x xs ih => simp [enumFromN, ih]

/-- Position `i` of the list appears as the pair `(k+i, l[i])`. -/
theorem enumFromN_mem_get (k : Nat) (l : List α) (i : Nat) (hi : i < l.length) :
    (k + i, l.get ⟨i, hi⟩) ∈ enumFromN k l := by
  induction l generalizing k i with
  | nil => cases hi
  | cons x xs ih =>
    cases i with
    | zero => simp [enumFromN]
    | succ j =>
      have hj : j < xs.length := Nat.lt_of_succ_lt_succ hi
      have := ih (k + 1) j hj
      have harith : k + (j + 1) = (k + 1) + j := by omega
      simp only [enumFromN, List.mem_cons]
      right
      rw [harith]
      exact this

/-- A pair in `enumFromN k l` has index at least `k` and value in `l`. -/
theorem mem_enumFromN (k : Nat) (l : List α) (p : Nat × α)
    (hp : p ∈ enumFromN k l) : p.2 ∈ l := by
  have := congrArg (fun xs => p.2 ∈ xs) (enumFromN_map_snd k l)
  simp only [eq_iff_iff] at this
  exact this.mp (List.mem_map.mpr ⟨p, hp, rfl⟩)

/-- `rowApply` never changes a row's id or collection. -/
theorem rowApply_id_collection (cid now : Nat) (ps : List (Nat × Nat))
    (it : ItemRow) :
    (rowApply cid now ps it).id = it.id ∧
    (rowApply cid now ps it).collection_id = it.collection_id := by
  induction ps generalizing it with
  | nil => exact ⟨rfl, rfl⟩
  | cons p t ih =>
    unfold rowApply at *
    simp only [List.foldl_cons]
    by_cases h : (it.id == p.2 && it.collection_id == cid) = true
    · rw [if_pos h]
      exact ih _
    · rw [if_neg h]
      exact ih _

/-- A row matched by no pair passes through `rowApply` unchanged. -/
theorem rowApply_no_hit (cid now : Nat) (ps : List (Nat × Nat)) (it : ItemRow)
    (h : ∀ p ∈ ps, ¬(it.id = p.2 ∧ it.collection_id = cid)) :
    rowApply cid now ps it = it := by
  induction ps with
  | nil => rfl
  | cons p t ih =>
    unfold rowApply at *
    simp only [List.foldl_cons]
    have hp : (it.id == p.2 && it.collection_id == cid) = false := by
      have := h p (List.mem_cons_self _ _)
      by_cases h1 : it.id = p.2
      · by_cases h2 : it.collection_id = cid
        · exact absurd ⟨h1, h2⟩ this
        · simp [h2]
      · simp [h1]
    rw [if_neg (by simp [hp])]
    exact ih (fun q hq => h q (List.mem_cons_of_mem _ hq))

/-- When the pair list hits the row exactly once (unique targets), the row
ends with the paired order and the touched timestamp. -/
theorem rowApply_hit (cid now : Nat) (ps : List (Nat × Nat)) (it : ItemRow)
    (j : Nat) (hnd : (ps.map Prod.snd).Nodup) (hin : (j, it.id) ∈ ps)
    (hcid : it.collection_id = cid) :
    rowApply cid now ps it = { it with item_order := j, updated_date := now } := by
  induction ps generalizing it with
  | nil => cases hin
  | cons p t ih =>
    rw [List.map_cons] at hnd
    have hhd : p.2 ∉ t.map Prod.snd := (List.nodup_cons.mp hnd).1
    have htl : (t.map Prod.snd).Nodup := (List.nodup_cons.mp hnd).2
    rcases List.mem_cons.mp hin with hhead | htail
    · subst hhead
      unfold rowApply
      simp only [List.foldl_cons]
      have hcond : (it.id == (j, it.id).2 && it.collection_id == cid) = true := by
        simp [hcid]
      rw [if_pos hcond]
      refine rowApply_no_hit cid now t _ ?_
      intro q hq hcontra
      exact hhd (List.mem_map.mpr ⟨q, hq, by simpa using hcontra.1.symm⟩)
    · have hne : p.2 ≠ it.id := by
        intro he
        exact hhd (he ▸ List.mem_map.mpr ⟨(j, it.id), htail, rfl⟩)
      have hcond : (it.id == p.2) = false := by
        simpa using fun h => hne h.symm
      unfold rowApply
      simp only [List.foldl_cons, hcond, Bool.false_and, Bool.false_eq_true, if_false]
      exact ih it htl htail hcid

/-- Dedup-length check is exactly `Nodup` (Python `len(v) == len(set(v))`). -/
theorem dedup_length_eq_iff (l : List Nat) :
    (l.dedup.length == l.length) = true ↔ l.Nodup := by
  constructor
  · intro h
    have hlen : l.dedup.length = l.length := by simpa using h
    have : l.dedup = l := (List.dedup_sublist l).eq_of_length hlen
    exact this ▸ l.nodup_dedup
  · intro h
    simp [List.dedup_eq_self.2 h]

/-- `natSetEq` is mutual membership. -/
theorem natSetEq_iff (a b : List Nat) :
    natSetEq a b = true ↔ ∀ x, x ∈ a ↔ x ∈ b := by
  unfold natSetEq
  rw [Bool.and_eq_true, List.all_eq_true, List.all_eq_true]
  constructor
  · intro ⟨h1, h2⟩ x
    constructor
    · intro hx
      have := h1 x hx
      simpa using this
    · intro hx
      have := h2 x hx
      simpa using this
  · intro h
    constructor
    · intro x hx
      simpa using (h x).mp hx
    · intro x hx
      simpa using (h x).mpr hx

/-- The pydantic validator in propositional form. -/
theorem validate_item_ids_iff (v : List Nat) :
    validate_item_ids v = true ↔ (v ≠ [] ∧ v.Nodup ∧ ∀ i ∈ v, 0 < i) := by
  unfold validate_item_ids
  rw [Bool.and_eq_true, Bool.and_eq_true]
  rw [dedup_length_eq_iff, List.all_eq_true]
  constructor
  · intro ⟨⟨h1, h2⟩, h3⟩
    refine ⟨?_, h2, fun i hi => by simpa using h3 i hi⟩
    intro he
    rw [he] at h1
    simp at h1
  · intro ⟨h1, h2, h3⟩
    refine ⟨⟨?_, h2⟩, fun i hi => by simpa using h3 i hi⟩
    simpa [List.isEmpty_iff] using h1

/-- Success of `update_item_order` means: request validation passed, the
owner check passed, the provided set matched, and the state is the
position-indexed rewrite. -/
theorem update_item_order_ok_elim (db db' : DB) (uid cid now : Nat)
    (ids : List Nat) (hok : update_item_order db uid cid ids now = .ok db') :
    validate_item_ids ids = true ∧
    natSetEq ((scopeItems db cid).map (fun it => it.id)) ids = true ∧
    db' = { db with items := applyItemOrders db.items cid ids now,
                    collections := touchCollection db.collections cid now } := by
  unfold update_item_order at hok
  split at hok
  · exact absurd hok (by simp)
  · rename_i hv
    split at hok
    · exact absurd hok (by simp)
    · simp only [] at hok
      split at hok
      · exact absurd hok (by simp)
      · rename_i hs
        cases hok
        refine ⟨by simpa using hv, by simpa using hs, rfl⟩

/-- The reorder loop is a single map of the per-row fold. -/
theorem applyItemOrders_eq_map (items : List ItemRow) (cid : Nat)
    (ids : List Nat) (now : Nat) :
    applyItemOrders items cid ids now =
      items.map (rowApply cid now (enumFromN 0 ids)) := by
  unfold applyItemOrders rowApply
  exact foldl_map_comm _ _ _

/-- **C3**.  When a full-sequence item reorder is accepted, every provided
id's item ends with `item_order` equal to its 0-based position in the list
and a touched timestamp, and the owning collection's `updated_date` is set
to the request instant (hence advances whenever the old value was in the
past).  `hpk` is the primary-key uniqueness of item ids. -/
theorem accepted_item_reorder_sets_positions
    (db db' : DB) (uid cid now : Nat) (ids : List Nat)
    (hpk : (db.items.map (fun it => it.id)).Nodup)
    (hok : update_item_order db uid cid ids now = .ok db') :
    (∀ i, ∀ hi : i < ids.length, ∀ it, it ∈ db'.items →
        it.id = ids.get ⟨i, hi⟩ → it.item_order = i ∧ it.updated_date = now) ∧
    (∀ c, c ∈ db'.collections → c.id = cid → c.updated_date = now) ∧
    (∀ c c', c ∈ db.collections → c.id = cid → c' ∈ db'.collections →
        c'.id = cid → c.updated_date < now → c.updated_date < c'.updated_date) := by
  obtain ⟨hv, hs, hdb⟩ := update_item_order_ok_elim db db' uid cid now ids hok
  subst hdb
  have hts : ∀ c, c ∈ touchCollection db.collections cid now → c.id = cid →
      c.updated_date = now := by
    intro c hc hcid
    obtain ⟨c0, hc0, rfl⟩ := List.mem_map.mp hc
    by_cases h : (c0.id == cid) = true
    · unfold touchCollection at *
      simp only [h, if_pos] at hcid ⊢
    · unfold touchCollection at *
      simp only [h, Bool.false_eq_true, if_false] at hcid ⊢
      exact absurd (by simpa using hcid) (by simpa using h)
  refine ⟨?_, hts, ?_⟩
  · intro i hi it hmem hid
    have hmem2 : it ∈ applyItemOrders db.items cid ids now := hmem
    rw [applyItemOrders_eq_map] at hmem2
    obtain ⟨r, hr, hrw⟩ := List.mem_map.mp hmem2
    subst hrw
    have hrid : r.id = ids.get ⟨i, hi⟩ := by
      rw [← (rowApply_id_collection cid now (enumFromN 0 ids) r).1]
      exact hid
    have hget_mem : ids.get ⟨i, hi⟩ ∈ ids := List.get_mem ids i hi
    have hcur : ids.get ⟨i, hi⟩ ∈ (scopeItems db cid).map (fun it => it.id) :=
      ((natSetEq_iff _ _).mp hs _).mpr hget_mem
    obtain ⟨r', hr', hr'id⟩ := List.mem_map.mp hcur
    have hr'mem : r' ∈ db.items := (List.mem_filter.mp hr').1
    have hr'cid : r'.collection_id = cid := by
      have := (List.mem_filter.mp hr').2
      simpa [scopeItems] using this
    have hrr' : r = r' :=
      List.inj_on_of_nodup_map hpk hr hr'mem (by rw [hrid, hr'id])
    have hrcid : r.collection_id = cid := hrr' ▸ hr'cid
    have hnd_ids : ids.Nodup := ((validate_item_ids_iff ids).mp hv).2.1
    have hnd_snd : ((enumFromN 0 ids).map Prod.snd).Nodup := by
      rw [enumFromN_map_snd]
      exact hnd_ids
    have hpair : (i, r.id) ∈ enumFromN 0 ids := by
      rw [hrid]
      have := enumFromN_mem_get 0 ids i hi
      simpa using this
    rw [rowApply_hit cid now (enumFromN 0 ids) r i hnd_snd hpair hrcid]
    exact ⟨rfl, rfl⟩
  · intro c c' hc hcid hc' hc'id hlt
    rw [hts c' hc' hc'id]
    exact hlt

/-- **C2** (amended).  Acceptance criteria of the two full-sequence reorder
endpoints, given that the addressed collection exists and is owned by the
caller.  Items endpoint: accepted iff the list is non-empty, duplicate-free,
all ids positive, and its set equals the live item-id set (a true
permutation; empty input is rejected even on an empty scope, by the pydantic
validator).  Collections endpoint: accepted iff the list is non-empty and
its *set* equals the live collection-id set — duplicates pass whenever the
set matches, and empty input is rejected even when the user owns no
collections. -/
theorem reorder_accepts_iff_set_match
    (db : DB) (uid cid now : Nat) (ids cids : List Nat)
    (hc : ∃ c ∈ db.collections, c.id = cid ∧ c.owner_id = uid) :
    ((update_item_order db uid cid ids now).isOk = true ↔
      (ids ≠ [] ∧ ids.Nodup ∧ (∀ i ∈ ids, 0 < i) ∧
       ∀ x, x ∈ (scopeItems db cid).map (fun it => it.id) ↔ x ∈ ids)) ∧
    ((update_collection_order db uid cids now).isOk = true ↔
      (cids ≠ [] ∧
       ∀ x, x ∈ (scopeCollections db uid).map (fun c => c.id) ↔ x ∈ cids)) := by
  constructor
  · obtain ⟨c0, hc0, hcid0, hco0⟩ := hc
    have hvc : ∃ c1, verify_collection db uid cid = .ok c1 := by
      unfold verify_collection
      cases hfind : db.collections.find? (fun c => c.id == cid && c.owner_id == uid) with
      | none =>
        exfalso
        have := List.find?_eq_none.mp hfind c0 hc0
        simp [hcid0, hco0] at this
      | some c1 => exact ⟨c1, rfl⟩
    obtain ⟨c1, hvc⟩ := hvc
    by_cases hv : validate_item_ids ids = true
    · by_cases hs : natSetEq ((scopeItems db cid).map (fun it => it.id)) ids = true
      · unfold update_item_order
        rw [hvc]
        simp only [hv, hs, Bool.not_true, Bool.false_eq_true, if_false]
        obtain ⟨h1, h2, h3⟩ := (validate_item_ids_iff ids).mp hv
        exact iff_of_true rfl ⟨h1, h2, h3, (natSetEq_iff _ _).mp hs⟩
      · have hs' : natSetEq ((scopeItems db cid).map (fun it => it.id)) ids = false := by
          cases h : natSetEq ((scopeItems db cid).map (fun it => it.id)) ids
          · rfl
          · exact absurd h hs
        unfold update_item_order
        rw [hvc]
        simp only [hv, hs', Bool.not_true, Bool.false_eq_true, if_false,
          Bool.not_false, if_true]
        refine iff_of_false (by simp [Except.isOk, Except.toBool]) ?_
        rintro ⟨-, -, -, h4⟩
        exact hs ((natSetEq_iff _ _).mpr h4)
    · have hv' : validate_item_ids ids = false := by
        cases h : validate_item_ids ids
        · rfl
        · exact absurd h hv
      unfold update_item_order
      simp only [hv', Bool.not_false, if_true]
      refine iff_of_false (by simp [Except.isOk, Except.toBool]) ?_
      rintro ⟨h1, h2, h3, -⟩
      exact hv ((validate_item_ids_iff ids).mpr ⟨h1, h2, h3⟩)
  · by_cases he : cids = []
    · subst he
      unfold update_collection_order
      simp only [List.length_nil]
      refine iff_of_false (by simp [Except.isOk, Except.toBool]) ?_
      rintro ⟨h1, -⟩
      exact h1 rfl
    · have hlen : (cids.length == 0) = false := by
        simpa using fun h => he (List.length_eq_zero.mp h)
      by_cases hs : natSetEq ((scopeCollections db uid).map (fun c => c.id)) cids = true
      · unfold update_collection_order
        simp only [hlen, hs, Bool.false_eq_true, if_false, Bool.not_true]
        exact iff_of_true rfl ⟨he, (natSetEq_iff _ _).mp hs⟩
      · have hs' : natSetEq ((scopeCollections db uid).map (fun c => c.id)) cids = false := by
          cases h : natSetEq ((scopeCollections db uid).map (fun c => c.id)) cids
          · rfl
          · exact absurd h hs
        unfold update_collection_order
        simp only [hlen, hs', Bool.false_eq_true, if_false, Bool.not_false, if_true]
        refine iff_of_false (by simp [Except.isOk, Except.toBool]) ?_
        rintro ⟨-, h2⟩
        exact hs ((natSetEq_iff _ _).mpr h2)

/-- **C2** (counterexample).  The claim requires each live id to appear
exactly once, rejecting duplicates.  On the collections endpoint the body is
a plain `List[int]` and the check is `set(current) == set(provided)`, so for
user 1 owning exactly collection 5 the duplicated list `[5, 5]` is accepted
even though 5 appears twice. -/
theorem duplicate_ids_accepted_in_collection_reorder :
    (update_collection_order shareDb 1 [5, 5] 9).isOk = true ∧
    ¬ ([5, 5] : List Nat).Nodup := by
  exact ⟨rfl, by decide⟩

/-- Closed instance of `reorder_accepts_iff_set_match` on `richDb`: the item
permutation `[21, 20]` of collection 5 and the collection permutation
`[6, 5]` of user 1 are both accepted. -/
theorem reorder_accepts_iff_set_match_witness :
    (update_item_order richDb 1 5 [21, 20] 9).isOk = true ∧
    (update_collection_order richDb 1 [6, 5] 9).isOk = true := by
  have h := reorder_accepts_iff_set_match richDb 1 5 9 [21, 20] [6, 5]
    ⟨⟨5, "c5", none, 1, 0, 0, 0⟩, by decide, rfl, rfl⟩
  refine ⟨h.1.mpr ⟨by decide, by decide, by decide, ?_⟩, h.2.mpr ⟨by decide, ?_⟩⟩
  · show ∀ x, x ∈ ([20, 21] : List Nat) ↔ x ∈ [21, 20]
    intro x
    constructor <;> intro hx <;> simp at hx ⊢ <;> tauto
  · show ∀ x, x ∈ ([5, 6] : List Nat) ↔ x ∈ [6, 5]
    intro x
    constructor <;> intro hx <;> simp at hx ⊢ <;> tauto

/-- The spec scenario for C3: user 1's collection 2 with items I1=11,
I2=12, I3=13 at orders 0, 1, 2. -/
def c3Db : DB :=
  { users := [⟨1, "alice", "alice@x.com", "h1", 0, 0⟩],
    collections := [⟨2, "C", none, 1, 0, 0, 0⟩],
    items := [⟨11, "i11", none, 2, 0, 0, 0⟩, ⟨12, "i12", none, 2, 1, 0, 0⟩,
              ⟨13, "i13", none, 2, 2, 0, 0⟩],
    item_images := [], tags := [], item_tags := [],
    collection_shares := [], next_id := 14 }

/-- `c3Db` after the accepted reorder `[13, 11, 12]` at instant 9. -/
def c3DbAfter : DB :=
  { c3Db with
    items := [⟨11, "i11", none, 2, 1, 0, 9⟩, ⟨12, "i12", none, 2, 2, 0, 9⟩,
              ⟨13, "i13", none, 2, 0, 0, 9⟩],
    collections := [⟨2, "C", none, 1, 0, 0, 9⟩] }

/-- Closed instance of `accepted_item_reorder_sets_positions`: submitting
`[I3, I1, I2]` yields I3.order=0, I1.order=1, I2.order=2 and advances the
collection's `updated_date` from 0 to 9. -/
theorem accepted_item_reorder_sets_positions_witness :
    update_item_order c3Db 1 2 [13, 11, 12] 9 = .ok c3DbAfter ∧
    (c3DbAfter.items.find? (fun it => it.id == 13)).map (fun it => it.item_order)
      = some 0 ∧
    (c3DbAfter.items.find? (fun it => it.id == 11)).map (fun it => it.item_order)
      = some 1 ∧
    (c3DbAfter.items.find? (fun it => it.id == 12)).map (fun it => it.item_order)
      = some 2 ∧
    (c3DbAfter.collections.find? (fun c => c.id == 2)).map (fun c => c.updated_date)
      = some 9 ∧ (0 : Nat) < 9 := by
  have h := accepted_item_reorder_sets_positions c3Db c3DbAfter 1 2 9 [13, 11, 12]
    (by decide) rfl
  have h13 := (h.1 0 (by decide) ⟨13, "i13", none, 2, 0, 0, 9⟩ (by decide) rfl).1
  have h11 := (h.1 1 (by decide) ⟨11, "i11", none, 2, 1, 0, 9⟩ (by decide) rfl).1
  have h12 := (h.1 2 (by decide) ⟨12, "i12", none, 2, 2, 0, 9⟩ (by decide) rfl).1
  have hcoll := h.2.1 ⟨2, "C", none, 1, 0, 0, 9⟩ (by decide) rfl
  exact ⟨rfl, congrArg some h13, congrArg some h11, congrArg some h12,
    congrArg some hcoll, by decide⟩

/- ### C4/C5: composite image update lemmas -/

/-- The id whose `image_order` an order-list entry writes when it
validates. -/
def refTarget (tmap : List (String × Nat)) : ImgRef → Option Nat
  | .intId n => some n
  | .strId s =>
    if pyStartsWith s "new" then tmap.lookup s
    else
      match pyToNat? s with
      | some n => some n
      | none => none

/-- A successful association lookup returns a stored pair. -/
theorem lookup_mem {l : List (String × Nat)} {a : String} {b : Nat}
    (h : l.lookup a = some b) : (a, b) ∈ l := by
  induction l with
  | nil => cases h
  | cons p t ih =>
    obtain ⟨k, v⟩ := p
    rw [List.lookup_cons] at h
    cases hak : (a == k) with
    | true =>
      rw [hak] at h
      simp only [] at h
      cases h
      have : a = k := by simpa using hak
      subst this
      exact List.mem_cons_self _ _
    | false =>
      rw [hak] at h
      simp only [] at h
      exact List.mem_cons_of_mem _ (ih h)

/-- `setImageOrder` keeps every row's id and owning item. -/
theorem setImageOrder_pairs (imgs : List ItemImageRow) (t o : Nat) :
    (setImageOrder imgs t o).map (fun im => (im.id, im.item_id)) =
      imgs.map (fun im => (im.id, im.item_id)) := by
  unfold setImageOrder
  rw [List.map_map]
  refine List.map_congr_left ?_
  intro im _
  by_cases h : (im.id == t) = true <;> simp [Function.comp, h]

/-- A row whose id is not the written target passes `setImageOrder`
unchanged (as a member). -/
theorem setImageOrder_mem_of_ne (imgs : List ItemImageRow) (t o tid : Nat)
    (hne : tid ≠ t) (im : ItemImageRow) (him : im ∈ setImageOrder imgs t o)
    (hid : im.id = tid) : im ∈ imgs := by
  unfold setImageOrder at him
  obtain ⟨im1, him1, heq⟩ := List.mem_map.mp him
  by_cases h : (im1.id == t) = true
  · exfalso
    subst heq
    simp only [h, if_pos] at hid
    exact hne ((hid.symm.trans (by simpa using h)))
  · rw [← heq]
    simp only [h, Bool.false_eq_true, if_false]
    exact him1

/-- A row carrying the written target id ends with the written order. -/
theorem setImageOrder_order_of_id (imgs : List ItemImageRow) (t o : Nat)
    (im : ItemImageRow) (him : im ∈ setImageOrder imgs t o)
    (hid : im.id = t) : im.image_order = o := by
  unfold setImageOrder at him
  obtain ⟨im1, him1, heq⟩ := List.mem_map.mp him
  by_cases h : (im1.id == t) = true
  · rw [← heq]
    simp [h]
  · exfalso
    subst heq
    simp only [h, Bool.false_eq_true, if_false] at hid
    exact absurd (by simpa using hid) (by simpa using h)

/-- Every index produced by `enumFromN k` is at least `k`. -/
theorem mem_enumFromN_fst_ge (k : Nat) (l : List α) (q : Nat × α)
    (hq : q ∈ enumFromN k l) : k ≤ q.1 := by
  induction l generalizing k with
  | nil => cases hq
  | cons x xs ih =>
    rcases List.mem_cons.mp hq with h | h
    · subst h; exact Nat.le_refl _
    · exact Nat.le_of_succ_le (ih (k + 1) h)

/-- The indices of `enumFromN` are pairwise distinct. -/
theorem enumFromN_fst_nodup (k : Nat) (l : List α) :
    ((enumFromN k l).map Prod.fst).Nodup := by
  induction l generalizing k with
  | nil => exact List.nodup_nil
  | cons x xs ih =>
    simp only [enumFromN, List.map_cons]
    rw [List.nodup_cons]
    refine ⟨?_, ih (k + 1)⟩
    intro hk
    obtain ⟨q, hq, hqk⟩ := List.mem_map.mp hk
    have := mem_enumFromN_fst_ge (k + 1) xs q hq
    omega

/-- In the enumeration of a duplicate-free list, a value determines its
index. -/
theorem enumFromN_fst_unique (k : Nat) (l : List α) (hnd : l.Nodup)
    (p1 p2 : Nat) (x : α) (h1 : (p1, x) ∈ enumFromN k l)
    (h2 : (p2, x) ∈ enumFromN k l) : p1 = p2 := by
  induction l generalizing k with
  | nil => cases h1
  | cons y ys ih =>
    have hy : y ∉ ys := (List.nodup_cons.mp hnd).1
    rcases List.mem_cons.mp h1 with ha | ha <;>
      rcases List.mem_cons.mp h2 with hb | hb
    · rw [(Prod.mk.injEq _ _ _ _).mp ha |>.1, (Prod.mk.injEq _ _ _ _).mp hb |>.1]
    · exfalso
      have hx : x = y := ((Prod.mk.injEq _ _ _ _).mp ha).2
      subst hx
      exact hy (mem_enumFromN (k + 1) ys _ hb)
    · exfalso
      have hx : x = y := ((Prod.mk.injEq _ _ _ _).mp hb).2
      subst hx
      exact hy (mem_enumFromN (k + 1) ys _ ha)
    · exact ih (k + 1) (List.Nodup.of_cons hnd) ha hb

/-- Each upload index is correlated in the temp map. -/
theorem tempIdMap_mem (cnt next i : Nat) (hi : i < cnt) :
    (tempName i, next + i) ∈ tempIdMap cnt next :=
  List.mem_map.mpr ⟨i, List.mem_range.mpr hi, rfl⟩

/-- Members of the temp map all come from upload indices. -/
theorem tempIdMap_mem_elim (cnt next : Nat) (s : String) (t : Nat)
    (h : (s, t) ∈ tempIdMap cnt next) :
    ∃ i, i < cnt ∧ s = tempName i ∧ t = next + i := by
  obtain ⟨i, hi, heq⟩ := List.mem_map.mp h
  exact ⟨i, List.mem_range.mp hi,
    ((Prod.mk.injEq _ _ _ _).mp heq).1.symm,
    ((Prod.mk.injEq _ _ _ _).mp heq).2.symm⟩

/-- Minted ids never collide below the allocator floor. -/
theorem tempIdMap_value_ge (cnt next : Nat) (s : String) (t : Nat)
    (h : (s, t) ∈ tempIdMap cnt next) : next ≤ t := by
  obtain ⟨i, -, -, ht⟩ := tempIdMap_mem_elim cnt next s t h
  omega

/-- A minted id determines its temp key. -/
theorem tempIdMap_value_inj (cnt next : Nat) (s1 s2 : String) (t : Nat)
    (h1 : (s1, t) ∈ tempIdMap cnt next) (h2 : (s2, t) ∈ tempIdMap cnt next) :
    s1 = s2 := by
  obtain ⟨i, -, hsi, hti⟩ := tempIdMap_mem_elim cnt next s1 t h1
  obtain ⟨j, -, hsj, htj⟩ := tempIdMap_mem_elim cnt next s2 t h2
  have : i = j := by omega
  rw [hsi, hsj, this]

/-- A successful reorder pass permutes no rows: every row keeps its id and
owning item (only `image_order` fields change). -/
theorem applyImageOrders_pairs (pairs : List (Nat × ImgRef))
    (imgs imgs2 : List ItemImageRow) (cur fnd : List Nat)
    (tmap : List (String × Nat))
    (hok : applyImageOrders imgs cur fnd tmap pairs = .ok imgs2) :
    imgs2.map (fun im => (im.id, im.item_id)) =
      imgs.map (fun im => (im.id, im.item_id)) := by
  induction pairs generalizing imgs with
  | nil =>
    unfold applyImageOrders at hok
    cases hok
    rfl
  | cons q rest ih =>
    obtain ⟨o, ref⟩ := q
    cases ref with
    | strId s =>
      unfold applyImageOrders at hok
      simp only [] at hok
      split at hok
      · split at hok
        · exact absurd hok (by simp)
        · rw [ih _ hok, setImageOrder_pairs]
      · split at hok
        · exact absurd hok (by simp)
        · split at hok
          · exact absurd hok (by simp)
          · rw [ih _ hok, setImageOrder_pairs]
    | intId n =>
      unfold applyImageOrders at hok
      simp only [] at hok
      split at hok
      · exact absurd hok (by simp)
      · rw [ih _ hok, setImageOrder_pairs]

/-- On a successful pass, every integer-targeting entry (plain int or digit
string) refers to a current image id that was not just deleted. -/
theorem applyImageOrders_int_ids_checked (pairs : List (Nat × ImgRef))
    (imgs imgs2 : List ItemImageRow) (cur fnd : List Nat)
    (tmap : List (String × Nat))
    (hok : applyImageOrders imgs cur fnd tmap pairs = .ok imgs2) :
    ∀ q ∈ pairs,
      (∀ n, q.2 = .intId n → cur.contains n = true ∧ fnd.contains n = false) ∧
      (∀ s n, q.2 = .strId s → pyStartsWith s "new" = false → pyToNat? s = some n →
        cur.contains n = true ∧ fnd.contains n = false) := by
  induction pairs generalizing imgs with
  | nil => intro q hq; cases hq
  | cons q0 rest ih =>
    obtain ⟨o, ref⟩ := q0
    intro q hq
    rcases List.mem_cons.mp hq with hh | ht
    · subst hh
      cases ref with
      | strId s =>
        unfold applyImageOrders at hok
        simp only [] at hok
        refine ⟨(fun n hn => by cases hn), ?_⟩
        intro s' n hs' hnew htn
        have hss : s = s' := by simpa using hs'
        subst hss
        rw [if_neg (by simp [hnew]), htn] at hok
        simp only [] at hok
        split at hok
        · exact absurd hok (by simp)
        · rename_i hcond
          refine ⟨?_, ?_⟩
          · cases hcur : cur.contains n
            · exact absurd (by rw [hcur]; rfl) hcond
            · rfl
          · cases hfnd : fnd.contains n
            · rfl
            · exact absurd (by rw [hfnd, Bool.or_true]) hcond
      | intId n0 =>
        unfold applyImageOrders at hok
        simp only [] at hok
        refine ⟨?_, (fun s n hs => by cases hs)⟩
        intro n hn
        have hnn : n0 = n := by simpa using hn
        subst hnn
        split at hok
        · exact absurd hok (by simp)
        · rename_i hcond
          refine ⟨?_, ?_⟩
          · cases hcur : cur.contains n0
            · exact absurd (by rw [hcur]; rfl) hcond
            · rfl
          · cases hfnd : fnd.contains n0
            · rfl
            · exact absurd (by rw [hfnd, Bool.or_true]) hcond
    · cases ref with
      | strId s =>
        unfold applyImageOrders at hok
        simp only [] at hok
        split at hok
        · split at hok
          · exact absurd hok (by simp)
          · exact ih _ hok q ht
        · split at hok
          · exact absurd hok (by simp)
          · split at hok
            · exact absurd hok (by simp)
            · exact ih _ hok q ht
      | intId n =>
        unfold applyImageOrders at hok
        simp only [] at hok
        split at hok
        · exact absurd hok (by simp)
        · exact ih _ hok q ht

/-- Rows whose id no entry targets keep their `image_order` through a
successful pass. -/
theorem applyImageOrders_untouched (pairs : List (Nat × ImgRef))
    (imgs imgs2 : List ItemImageRow) (cur fnd : List Nat)
    (tmap : List (String × Nat)) (tid : Nat)
    (hok : applyImageOrders imgs cur fnd tmap pairs = .ok imgs2)
    (hnw : ∀ q ∈ pairs, refTarget tmap q.2 ≠ some tid) :
    ∀ im ∈ imgs2, im.id = tid →
      ∃ im0 ∈ imgs, im0.id = tid ∧ im.image_order = im0.image_order := by
  induction pairs generalizing imgs with
  | nil =>
    unfold applyImageOrders at hok
    cases hok
    exact fun im him hid => ⟨im, him, hid, rfl⟩
  | cons q0 rest ih =>
    obtain ⟨o, ref⟩ := q0
    have hq0 : refTarget tmap ref ≠ some tid := hnw (o, ref) (List.mem_cons_self _ _)
    have hrest : ∀ q ∈ rest, refTarget tmap q.2 ≠ some tid :=
      fun q hq => hnw q (List.mem_cons_of_mem _ hq)
    cases ref with
    | strId s =>
      unfold applyImageOrders at hok
      simp only [] at hok
      by_cases hnew : pyStartsWith s "new" = true
      · rw [if_pos hnew] at hok
        cases hlk : tmap.lookup s with
        | none => rw [hlk] at hok; exact absurd hok (by simp)
        | some new_id =>
          rw [hlk] at hok
          simp only [] at hok
          have hne : tid ≠ new_id := by
            intro he
            apply hq0
            simp only [refTarget]
            rw [if_pos hnew, hlk, he]
          intro im him hid
          obtain ⟨im0, him0, hid0, hord⟩ := ih _ hok hrest im him hid
          exact ⟨im0, setImageOrder_mem_of_ne imgs new_id o tid hne im0 him0 hid0,
            hid0, hord⟩
      · rw [if_neg hnew] at hok
        cases htn : pyToNat? s with
        | none => rw [htn] at hok; exact absurd hok (by simp)
        | some n =>
          rw [htn] at hok
          simp only [] at hok
          split at hok
          · exact absurd hok (by simp)
          · have hne : tid ≠ n := by
              intro he
              apply hq0
              simp only [refTarget]
              rw [if_neg hnew, htn, he]
            intro im him hid
            obtain ⟨im0, him0, hid0, hord⟩ := ih _ hok hrest im him hid
            exact ⟨im0, setImageOrder_mem_of_ne imgs n o tid hne im0 him0 hid0,
              hid0, hord⟩
    | intId n =>
      unfold applyImageOrders at hok
      simp only [] at hok
      split at hok
      · exact absurd hok (by simp)
      · have hne : tid ≠ n := by
          intro he
          apply hq0
          simp only [refTarget]
          rw [he]
        intro im him hid
        obtain ⟨im0, him0, hid0, hord⟩ := ih _ hok hrest im him hid
        exact ⟨im0, setImageOrder_mem_of_ne imgs n o tid hne im0 him0 hid0,
          hid0, hord⟩

/-- When exactly one entry targets `tid`, every row with id `tid` ends with
that entry's position as its `image_order`. -/
theorem applyImageOrders_writer_sets (pairs : List (Nat × ImgRef))
    (imgs imgs2 : List ItemImageRow) (cur fnd : List Nat)
    (tmap : List (String × Nat)) (p tid : Nat) (ref : ImgRef)
    (hok : applyImageOrders imgs cur fnd tmap pairs = .ok imgs2)
    (hin : (p, ref) ∈ pairs) (htar : refTarget tmap ref = some tid)
    (huniq : ∀ q ∈ pairs, refTarget tmap q.2 = some tid → q = (p, ref))
    (hfst : (pairs.map Prod.fst).Nodup) :
    ∀ im ∈ imgs2, im.id = tid → im.image_order = p := by
  induction pairs generalizing imgs with
  | nil => cases hin
  | cons q0 rest ih =>
    obtain ⟨o, r⟩ := q0
    rw [List.map_cons] at hfst
    have hofst : o ∉ rest.map Prod.fst := (List.nodup_cons.mp hfst).1
    have hfst' : (rest.map Prod.fst).Nodup := (List.nodup_cons.mp hfst).2
    by_cases hhead : (o, r) = (p, ref)
    · obtain ⟨ho, hr⟩ := Prod.mk.injEq _ _ _ _ ▸ hhead
      subst ho
      subst hr
      have hnw : ∀ q ∈ rest, refTarget tmap q.2 ≠ some tid := by
        intro q hq hcontra
        have := huniq q (List.mem_cons_of_mem _ hq) hcontra
        subst this
        exact hofst (List.mem_map.mpr ⟨(o, r), hq, rfl⟩)
      cases r with
      | strId s =>
        unfold applyImageOrders at hok
        simp only [] at hok
        simp only [refTarget] at htar
        by_cases hnew : pyStartsWith s "new" = true
        · rw [if_pos hnew] at hok htar
          rw [htar] at hok
          simp only [] at hok
          intro im him hid
          obtain ⟨im0, him0, hid0, hord⟩ :=
            applyImageOrders_untouched rest _ imgs2 cur fnd tmap tid hok hnw im him hid
          rw [hord]
          exact setImageOrder_order_of_id imgs tid o im0 him0 hid0
        · rw [if_neg hnew] at hok htar
          cases htn : pyToNat? s with
          | none => rw [htn] at htar; cases htar
          | some n =>
            rw [htn] at hok htar
            simp only [] at htar
            cases htar
            simp only [] at hok
            split at hok
            · exact absurd hok (by simp)
            · intro im him hid
              obtain ⟨im0, him0, hid0, hord⟩ :=
                applyImageOrders_untouched rest _ imgs2 cur fnd tmap tid hok hnw im him hid
              rw [hord]
              exact setImageOrder_order_of_id imgs tid o im0 him0 hid0
      | intId n =>
        unfold applyImageOrders at hok
        simp only [] at hok
        simp only [refTarget] at htar
        cases htar
        split at hok
        · exact absurd hok (by simp)
        · intro im him hid
          obtain ⟨im0, him0, hid0, hord⟩ :=
            applyImageOrders_untouched rest _ imgs2 cur fnd tmap tid hok hnw im him hid
          rw [hord]
          exact setImageOrder_order_of_id imgs tid o im0 him0 hid0
    · have hintail : (p, ref) ∈ rest := by
        rcases List.mem_cons.mp hin with h | h
        · exact absurd h.symm hhead
        · exact h
      have hq0 : refTarget tmap r ≠ some tid := by
        intro hcontra
        have := huniq (o, r) (List.mem_cons_self _ _) hcontra
        exact hhead this
      have huniq' : ∀ q ∈ rest, refTarget tmap q.2 = some tid → q = (p, ref) :=
        fun q hq hc => huniq q (List.mem_cons_of_mem _ hq) hc
      cases r with
      | strId s =>
        unfold applyImageOrders at hok
        simp only [] at hok
        by_cases hnew : pyStartsWith s "new" = true
        · rw [if_pos hnew] at hok
          cases hlk : tmap.lookup s with
          | none => rw [hlk] at hok; exact absurd hok (by simp)
          | some new_id =>
            rw [hlk] at hok
            simp only [] at hok
            exact ih _ hok hintail huniq' hfst'
        · rw [if_neg hnew] at hok
          cases htn : pyToNat? s with
          | none => rw [htn] at hok; exact absurd hok (by simp)
          | some n =>
            rw [htn] at hok
            simp only [] at hok
            split at hok
            · exact absurd hok (by simp)
            · exact ih _ hok hintail huniq' hfst'
      | intId n =>
        unfold applyImageOrders at hok
        simp only [] at hok
        split at hok
        · exact absurd hok (by simp)
        · exact ih _ hok hintail huniq' hfst'

/-- An order entry naming a just-deleted id makes the whole pass fail. -/
theorem applyImageOrders_deleted_in_order_fails (pairs : List (Nat × ImgRef))
    (imgs : List ItemImageRow) (cur fnd : List Nat)
    (tmap : List (String × Nat)) (p n : Nat)
    (hin : (p, ImgRef.intId n) ∈ pairs) (hfnd : fnd.contains n = true) :
    (applyImageOrders imgs cur fnd tmap pairs).isOk = false := by
  induction pairs generalizing imgs with
  | nil => cases hin
  | cons q0 rest ih =>
    obtain ⟨o, r⟩ := q0
    rcases List.mem_cons.mp hin with hh | ht
    · have h1 : r = ImgRef.intId n := ((Prod.mk.injEq _ _ _ _).mp hh).2.symm
      subst h1
      unfold applyImageOrders
      simp only []
      split
      · rfl
      · rename_i hcond
        exact absurd (by rw [hfnd, Bool.or_true]) hcond
    · cases r with
      | strId s =>
        unfold applyImageOrders
        simp only []
        by_cases hnew : pyStartsWith s "new" = true
        · rw [if_pos hnew]
          cases hlk : tmap.lookup s with
          | none => rfl
          | some t => exact ih _ ht
        · rw [if_neg hnew]
          cases htn : pyToNat? s with
          | none => rfl
          | some m =>
            show Except.isOk (if (!cur.contains m || fnd.contains m) = true then
              Except.error ⟨400, "Invalid image ID in order"⟩ else
              applyImageOrders (setImageOrder imgs m o) cur fnd tmap rest) = false
            split
            · rfl
            · exact ih _ ht
      | intId m =>
        unfold applyImageOrders
        simp only []
        split
        · rfl
        · exact ih _ ht

/-- What a successful composite image update guarantees structurally. -/
theorem update_item_images_ok_elim (db db' : DB) (uid iid now cnt : Nat)
    (dels : List Nat) (ord : List ImgRef)
    (hok : update_item_images db uid iid dels cnt ord now = .ok db') :
    (∀ n ∈ integerIdsInOrder ord, (currentImageIds db iid).contains n = true) ∧
    (∀ d ∈ dels, (foundImageIds db uid dels).contains d = true) ∧
    ∃ imgs2,
      applyImageOrders
        (survivingImages db uid dels ++ mintedImages db iid cnt now)
        (currentImageIds db iid) (foundImageIds db uid dels)
        (tempIdMap cnt db.next_id) (enumFromN 0 ord) = .ok imgs2 ∧
      db'.item_images = imgs2 := by
  unfold update_item_images at hok
  split at hok
  · exact absurd hok (by simp)
  · split at hok
    · exact absurd hok (by simp)
    · split at hok
      · exact absurd hok (by simp)
      · rename_i hearly hdel
        split at hok
        · exact absurd hok (by simp)
        · rename_i imgs2 happly
          cases hok
          refine ⟨?_, ?_, imgs2, happly, rfl⟩
          · intro n hn
            cases hc : (currentImageIds db iid).contains n
            · exfalso
              apply hearly
              exact List.any_eq_true.mpr ⟨n, hn, by rw [hc]; rfl⟩
            · rfl
          · intro d hd
            cases hc : (foundImageIds db uid dels).contains d
            · exfalso
              apply hdel
              exact List.any_eq_true.mpr ⟨d, hd, by rw [hc]; rfl⟩
            · rfl

/-- Current image ids of the addressed item sit below the allocator. -/
theorem currentImageIds_lt_next (db : DB) (iid : Nat)
    (hfresh : ∀ im ∈ db.item_images, im.id < db.next_id) :
    ∀ n, (currentImageIds db iid).contains n = true → n < db.next_id := by
  intro n hn
  have hmem : n ∈ currentImageIds db iid := by simpa using hn
  obtain ⟨im, him, heq⟩ := List.mem_map.mp hmem
  rw [← heq]
  exact hfresh im (List.mem_filter.mp him).1

/-- Every list member appears at some position of its enumeration. -/
theorem enumFromN_mem_of_mem (k : Nat) (l : List α) (x : α) (hx : x ∈ l) :
    ∃ p, (p, x) ∈ enumFromN k l := by
  induction l generalizing k with
  | nil => cases hx
  | cons y ys ih =>
    rcases List.mem_cons.mp hx with h | h
    · subst h
      exact ⟨k, List.mem_cons_self _ _⟩
    · obtain ⟨p, hp⟩ := ih (k + 1) h
      exact ⟨p, List.mem_cons_of_mem _ hp⟩

/-- **C4**.  Atomicity of the composite image update with respect to stored
records: a delete-list entry that resolves to no image owned by the caller,
or an integer order entry outside the item's current images, fails the whole
request (and, the result being a single commit, nothing is persisted); a
successful call persists all three phases together — every requested
deletion is gone and every uploaded file's freshly minted row is present.
`hpk`/`hfresh` are the store's primary-key invariants. -/
theorem update_item_images_atomic
    (db : DB) (uid iid now cnt : Nat) (dels : List Nat) (ord : List ImgRef)
    (hpk : (db.item_images.map (fun im => im.id)).Nodup)
    (hfresh : ∀ im ∈ db.item_images, im.id < db.next_id) :
    ((∃ d ∈ dels, ∀ im ∈ db.item_images, ¬(im.id = d ∧ imageOwned db uid im = true)) →
      ∃ e, update_item_images db uid iid dels cnt ord now = .error e) ∧
    ((∃ n, ImgRef.intId n ∈ ord ∧ ¬ n ∈ currentImageIds db iid) →
      ∃ e, update_item_images db uid iid dels cnt ord now = .error e) ∧
    (∀ db', update_item_images db uid iid dels cnt ord now = .ok db' →
      (∀ d ∈ dels, ∀ im ∈ db'.item_images, ¬ im.id = d) ∧
      (∀ i, i < cnt →
        ∃ im ∈ db'.item_images, im.id = db.next_id + i ∧ im.item_id = iid)) := by
  refine ⟨?_, ?_, ?_⟩
  · rintro ⟨d, hd, hnores⟩
    unfold update_item_images
    split
    · exact ⟨_, rfl⟩
    · split
      · exact ⟨_, rfl⟩
      · have hcond : dels.any
            (fun x => !((foundImageIds db uid dels).contains x)) = true := by
          refine List.any_eq_true.mpr ⟨d, hd, ?_⟩
          cases hc : (foundImageIds db uid dels).contains d
          · rfl
          · exfalso
            have hmem : d ∈ foundImageIds db uid dels := by simpa using hc
            obtain ⟨im, him, hidm⟩ := List.mem_map.mp hmem
            have him2 := List.mem_filter.mp him
            have hflt := him2.2
            rw [Bool.and_eq_true] at hflt
            exact hnores im him2.1 ⟨hidm, hflt.2⟩
        rw [if_pos hcond]
        exact ⟨_, rfl⟩
  · rintro ⟨n, hord, hnotcur⟩
    unfold update_item_images
    split
    · exact ⟨_, rfl⟩
    · have hcond : (integerIdsInOrder ord).any
          (fun x => !((currentImageIds db iid).contains x)) = true := by
        refine List.any_eq_true.mpr ⟨n, ?_, ?_⟩
        · exact List.mem_filterMap.mpr ⟨ImgRef.intId n, hord, rfl⟩
        · cases hc : (currentImageIds db iid).contains n
          · rfl
          · exact absurd (by simpa using hc) hnotcur
      rw [if_pos hcond]
      exact ⟨_, rfl⟩
  · intro db' hok
    obtain ⟨hints, hfound, imgs2, happly, himgs⟩ :=
      update_item_images_ok_elim db db' uid iid now cnt dels ord hok
    have hpairs := applyImageOrders_pairs _ _ _ _ _ _ happly
    constructor
    · intro d hd im him hid
      have hdlt : d < db.next_id := by
        have hfc := hfound d hd
        have hmem : d ∈ foundImageIds db uid dels := by simpa using hfc
        obtain ⟨imd, himd, hidd⟩ := List.mem_map.mp hmem
        rw [← hidd]
        exact hfresh imd (List.mem_filter.mp himd).1
      have him2 : im ∈ db'.item_images := him
      rw [himgs] at him2
      have hpair : (im.id, im.item_id) ∈ imgs2.map (fun im => (im.id, im.item_id)) :=
        List.mem_map.mpr ⟨im, him2, rfl⟩
      rw [hpairs] at hpair
      obtain ⟨im0, him0, hpair0⟩ := List.mem_map.mp hpair
      have hid0 : im0.id = im.id := ((Prod.mk.injEq _ _ _ _).mp hpair0).1
      rcases List.mem_append.mp him0 with hsurv | hmint
      · -- a surviving row cannot carry a successfully deleted id
        have him0db := (List.mem_filter.mp hsurv).1
        have hkeep := (List.mem_filter.mp hsurv).2
        have hfc := hfound d hd
        have hmem : d ∈ foundImageIds db uid dels := by simpa using hfc
        obtain ⟨imd, himd, hidd⟩ := List.mem_map.mp hmem
        have himd2 := List.mem_filter.mp himd
        have him0eq : im0 = imd :=
          List.inj_on_of_nodup_map hpk him0db himd2.1
            (by rw [hid0, hid, ← hidd])
        rw [him0eq] at hkeep
        rw [himd2.2] at hkeep
        exact absurd hkeep (by simp)
      · -- a minted row sits at or above the allocator floor
        obtain ⟨i, hi, heqi⟩ := List.mem_map.mp hmint
        have hidi : im0.id = db.next_id + i := by rw [← heqi]
        rw [hid0, hid] at hidi
        omega
    · intro i hi
      have hpm : (db.next_id + i, iid) ∈
          (survivingImages db uid dels ++ mintedImages db iid cnt now).map
            (fun im => (im.id, im.item_id)) := by
        refine List.mem_map.mpr ⟨ItemImageRow.mk (db.next_id + i)
          ("upload-" ++ toString (db.next_id + i)) iid 0 now now, ?_, rfl⟩
        refine List.mem_append.mpr (Or.inr ?_)
        exact List.mem_map.mpr ⟨i, List.mem_range.mpr hi, rfl⟩
      rw [← hpairs] at hpm
      obtain ⟨im, him, hpim⟩ := List.mem_map.mp hpm
      refine ⟨im, by rw [himgs]; exact him,
        ((Prod.mk.injEq _ _ _ _).mp hpim).1,
        ((Prod.mk.injEq _ _ _ _).mp hpim).2⟩

/-- **C5** (amended).  The reorder phase validates each order entry on its
own: every upload index is correlated in the temp map ('new-i' ↦ freshly
minted id); an integer entry naming a just-deleted id, or one outside the
item's current images, rejects the composite operation; and when the request
succeeds, a temp entry at position `p` leaves the minted image it resolves
to with `image_order = p`.  There is no whole-union check: omitting a
surviving or new image does not reject (see the counterexample). -/
theorem update_item_images_reorder_validation
    (db : DB) (uid iid now cnt : Nat) (dels : List Nat) (ord : List ImgRef)
    (hfresh : ∀ im ∈ db.item_images, im.id < db.next_id)
    (hordnd : ord.Nodup) :
    (∀ i, i < cnt → (tempName i, db.next_id + i) ∈ tempIdMap cnt db.next_id) ∧
    ((∃ n, ImgRef.intId n ∈ ord ∧ n ∈ dels) →
      ∀ db', update_item_images db uid iid dels cnt ord now ≠ .ok db') ∧
    ((∃ n, ImgRef.intId n ∈ ord ∧ ¬ n ∈ currentImageIds db iid) →
      ∃ e, update_item_images db uid iid dels cnt ord now = .error e) ∧
    (∀ db' p s tid, update_item_images db uid iid dels cnt ord now = .ok db' →
      (p, ImgRef.strId s) ∈ enumFromN 0 ord → pyStartsWith s "new" = true →
      (tempIdMap cnt db.next_id).lookup s = some tid →
      ∀ im ∈ db'.item_images, im.id = tid → im.image_order = p) := by
  refine ⟨fun i hi => tempIdMap_mem cnt db.next_id i hi, ?_, ?_, ?_⟩
  · rintro ⟨n, hord, hdel⟩ db' hok
    obtain ⟨-, hfound, imgs2, happly, -⟩ :=
      update_item_images_ok_elim db db' uid iid now cnt dels ord hok
    obtain ⟨p, hp⟩ := enumFromN_mem_of_mem 0 ord (ImgRef.intId n) hord
    have hfail := applyImageOrders_deleted_in_order_fails (enumFromN 0 ord)
      (survivingImages db uid dels ++ mintedImages db iid cnt now)
      (currentImageIds db iid) (foundImageIds db uid dels)
      (tempIdMap cnt db.next_id) p n hp (hfound n hdel)
    rw [happly] at hfail
    cases hfail
  · rintro ⟨n, hord, hnotcur⟩
    unfold update_item_images
    split
    · exact ⟨_, rfl⟩
    · have hcond : (integerIdsInOrder ord).any
          (fun x => !((currentImageIds db iid).contains x)) = true := by
        refine List.any_eq_true.mpr ⟨n, ?_, ?_⟩
        · exact List.mem_filterMap.mpr ⟨ImgRef.intId n, hord, rfl⟩
        · cases hc : (currentImageIds db iid).contains n
          · rfl
          · exact absurd (by simpa using hc) hnotcur
      rw [if_pos hcond]
      exact ⟨_, rfl⟩
  · intro db' p s tid hok hpos hnew hlk
    obtain ⟨hints, -, imgs2, happly, himgs⟩ :=
      update_item_images_ok_elim db db' uid iid now cnt dels ord hok
    have hchk := applyImageOrders_int_ids_checked _ _ _ _ _ _ happly
    have htidge : db.next_id ≤ tid :=
      tempIdMap_value_ge cnt db.next_id s tid (lookup_mem hlk)
    have htar : refTarget (tempIdMap cnt db.next_id) (ImgRef.strId s) = some tid := by
      simp only [refTarget]
      rw [if_pos hnew]
      exact hlk
    have huniq : ∀ q ∈ enumFromN 0 ord,
        refTarget (tempIdMap cnt db.next_id) q.2 = some tid →
        q = (p, ImgRef.strId s) := by
      rintro ⟨o, r⟩ hq htr
      cases r with
      | intId m =>
        exfalso
        simp only [refTarget] at htr
        cases htr
        have hcur := (hchk (o, ImgRef.intId tid) hq).1 tid rfl |>.1
        have := currentImageIds_lt_next db iid hfresh tid hcur
        omega
      | strId s' =>
        simp only [refTarget] at htr
        by_cases hnew' : pyStartsWith s' "new" = true
        · rw [if_pos hnew'] at htr
          have hss : s' = s :=
            tempIdMap_value_inj cnt db.next_id s' s tid
              (lookup_mem htr) (lookup_mem hlk)
          subst hss
          have hop : o = p :=
            enumFromN_fst_unique 0 ord hordnd o p (ImgRef.strId s') hq hpos
          rw [hop]
        · exfalso
          rw [if_neg hnew'] at htr
          cases htn : pyToNat? s' with
          | none => rw [htn] at htr; cases htr
          | some m =>
            rw [htn] at htr
            simp only [] at htr
            cases htr
            have hcur := (hchk (o, ImgRef.strId s') hq).2 s' tid rfl
              (by simpa using hnew') htn |>.1
            have := currentImageIds_lt_next db iid hfresh tid hcur
            omega
    have hset := applyImageOrders_writer_sets (enumFromN 0 ord)
      (survivingImages db uid dels ++ mintedImages db iid cnt now) imgs2
      (currentImageIds db iid) (foundImageIds db uid dels)
      (tempIdMap cnt db.next_id) p tid (ImgRef.strId s)
      happly hpos htar huniq (enumFromN_fst_nodup 0 ord)
    intro im him hid
    rw [himgs] at him
    exact hset im him hid

/-- User 1 owns collection 5 with item 20 carrying images 30 (order 0) and
31 (order 1). -/
def imgDb : DB :=
  { users := [⟨1, "alice", "alice@x.com", "h1", 0, 0⟩],
    collections := [⟨5, "c5", none, 1, 0, 0, 0⟩],
    items := [⟨20, "i20", none, 5, 0, 0, 0⟩],
    item_images := [⟨30, "u30", 20, 0, 0, 0⟩, ⟨31, "u31", 20, 1, 0, 0⟩],
    tags := [], item_tags := [], collection_shares := [], next_id := 32 }

/-- `imgDb` plus user 2 owning collection 10 / item 40 / image 50. -/
def imgDbTwo : DB :=
  { users := [⟨1, "alice", "alice@x.com", "h1", 0, 0⟩,
              ⟨2, "bob", "bob@x.com", "h2", 0, 0⟩],
    collections := [⟨5, "c5", none, 1, 0, 0, 0⟩, ⟨10, "c10", none, 2, 1, 0, 0⟩],
    items := [⟨20, "i20", none, 5, 0, 0, 0⟩, ⟨40, "i40", none, 10, 0, 0, 0⟩],
    item_images := [⟨30, "u30", 20, 0, 0, 0⟩, ⟨50, "u50", 40, 0, 0, 0⟩],
    tags := [], item_tags := [], collection_shares := [], next_id := 51 }

/-- `imgDb` after PATCH /items/20/images deleting 31, uploading one file
(minted id 32) and ordering `[30, "new-0"]` at instant 9. -/
def imgDbAfter : DB :=
  { imgDb with
    items := [⟨20, "i20", none, 5, 0, 0, 9⟩],
    item_images := [⟨30, "u30", 20, 0, 0, 0⟩, ⟨32, "upload-32", 20, 1, 9, 9⟩],
    next_id := 33 }

/-- **C5** (counterexample).  The claim says the order list must reference
exactly the union of surviving and new image ids, rejecting when one is
omitted.  Item 20 holds images 30 and 31; the composite update that deletes
nothing, uploads nothing and orders only `[31]` is *accepted*, leaving the
omitted image 30 at its old order (both images now share order 0 — the loop
only rewrites listed ids). -/
theorem omitted_image_accepted_in_composite_update :
    (update_item_images imgDb 1 20 [] 0 [ImgRef.intId 31] 9).map
      (fun d => d.item_images.map (fun im => (im.id, im.image_order))) =
      .ok [(30, 0), (31, 0)] := rfl

/-- Closed instance of `update_item_images_atomic` on `imgDbTwo`/`imgDb`:
deleting user 2's image 50 as user 1 fails; ordering the foreign id 99
fails; the successful delete-31/upload-one/reorder call leaves no row with
id 31 and mints row 32 for item 20. -/
theorem update_item_images_atomic_witness :
    (update_item_images imgDbTwo 1 20 [50] 0 [] 9).isOk = false ∧
    (update_item_images imgDb 1 20 [] 0 [ImgRef.intId 99] 9).isOk = false ∧
    imgDbAfter.item_images.all (fun im => !(im.id == 31)) = true ∧
    (32, 20) ∈ imgDbAfter.item_images.map (fun im => (im.id, im.item_id)) := by
  have hA := update_item_images_atomic imgDbTwo 1 20 9 0 [50] []
    (by decide) (by decide)
  have hB := update_item_images_atomic imgDb 1 20 9 0 [] [ImgRef.intId 99]
    (by decide) (by decide)
  have hC := update_item_images_atomic imgDb 1 20 9 1 [31]
    [ImgRef.intId 30, ImgRef.strId "new-0"] (by decide) (by decide)
  refine ⟨?_, ?_, ?_, ?_⟩
  · obtain ⟨e, he⟩ := hA.1 ⟨50, by decide, by decide⟩
    rw [he]; rfl
  · obtain ⟨e, he⟩ := hB.2.1 ⟨99, by decide, by decide⟩
    rw [he]; rfl
  · have h1 := (hC.2.2 imgDbAfter (by decide)).1
    refine List.all_eq_true.mpr ?_
    intro im him
    have := h1 31 (by decide) im him
    simpa using this
  · obtain ⟨im, him, h1, h2⟩ := (hC.2.2 imgDbAfter (by decide)).2 0 (by decide)
    refine List.mem_map.mpr ⟨im, him, ?_⟩
    rw [h1, h2]
    rfl

/-- Closed instance of `update_item_images_reorder_validation` on `imgDb`:
the temp key "new-0" is correlated to minted id 32; ordering the
just-deleted id 31 fails; ordering the foreign id 77 fails; and in the
successful call the image minted for "new-0" (listed at position 1) ends
with `image_order = 1`. -/
theorem update_item_images_reorder_validation_witness :
    (tempName 0, 32) ∈ tempIdMap 1 32 ∧
    (update_item_images imgDb 1 20 [31] 0 [ImgRef.intId 31] 9).isOk = false ∧
    (update_item_images imgDb 1 20 [] 0 [ImgRef.intId 77] 9).isOk = false ∧
    imgDbAfter.item_images.all
      (fun im => !(im.id == 32) || (im.image_order == 1)) = true := by
  have hA := update_item_images_reorder_validation imgDb 1 20 9 0 [31]
    [ImgRef.intId 31] (by decide) (by decide)
  have hB := update_item_images_reorder_validation imgDb 1 20 9 0 []
    [ImgRef.intId 77] (by decide) (by decide)
  have hC := update_item_images_reorder_validation imgDb 1 20 9 1 [31]
    [ImgRef.intId 30, ImgRef.strId "new-0"] (by decide) (by decide)
  refine ⟨?_, ?_, ?_, ?_⟩
  · exact hC.1 0 (by decide)
  · have h2 := hA.2.1 ⟨31, by decide, by decide⟩
    cases hres : update_item_images imgDb 1 20 [31] 0 [ImgRef.intId 31] 9 with
    | error e => rfl
    | ok d => exact absurd hres (h2 d)
  · obtain ⟨e, he⟩ := hB.2.2.1 ⟨77, by decide, by decide⟩
    rw [he]; rfl
  · have h4 := hC.2.2.2 imgDbAfter 1 "new-0" 32 (by decide) (by decide) (by decide) (by decide)
    refine List.all_eq_true.mpr ?_
    intro im him
    by_cases hid : im.id = 32
    · have := h4 im him hid
      simp [this, hid]
    · simp [hid]
